import Mathlib

/-!
Verification of the GPT-2 reference implementation (`train_gpt2.py`).

The tensor computations are shallowly embedded over `ℚ`: a tensor is a nested
list, and the transcendental kernels the code calls (`exp`, `sqrt`, `tanh`,
`log`, and the float constant `sqrt(2/pi)`) are abstracted into a `Prim`
structure, so that every structural statement (shapes, masking, ordering,
generation length) is proved for every interpretation of those kernels.
A score of `-inf` produced by `masked_fill` is represented by `none : Option ℚ`;
softmax maps it to weight `0`, matching `exp(-inf) = 0`.
The numeric contract of the GELU nonlinearity is stated separately over `ℝ`
with the genuine `Real.tanh`.
-/

/-- A rank-1 tensor (one row of floats). -/
abbrev Vec := List ℚ

/-- A rank-2 tensor, stored by rows. -/
abbrev Mat := List Vec

/-- Dot product of two rows (`torch` inner product). -/
def dot (a b : Vec) : ℚ := (List.zipWith (· * ·) a b).sum

/-- Pointwise sum of two rows. -/
def vecAdd (a b : Vec) : Vec := List.zipWith (· + ·) a b

/-- Matrix-vector product, `w` stored by rows. -/
def matVec (w : Mat) (x : Vec) : Vec := w.map (fun r => dot r x)

/-- `nn.Linear` with weight `w : (out, in)` and bias `b`: `x ↦ w·x + b`. -/
def linear (w : Mat) (b : Vec) (x : Vec) : Vec := vecAdd (matVec w x) b

/-- `nn.Linear` with `bias=False` (used by `lm_head`). -/
def linearNB (w : Mat) (x : Vec) : Vec := matVec w x

/-- Pointwise sum of two matrices (residual connections, broadcast adds). -/
def matAdd (a b : Mat) : Mat := List.zipWith vecAdd a b

/-- Scale a row by a constant. -/
def scaleVec (c : ℚ) (v : Vec) : Vec := v.map (c * ·)

/-- The transcendental kernels used by the Python code, abstracted so the
embedding stays executable: `exp`, `log`, `sqrt`, `tanh`, and the value the
float expression `math.sqrt(2.0 / math.pi)` evaluates to. -/
structure Prim where
  exp : ℚ → ℚ
  log : ℚ → ℚ
  sqrt : ℚ → ℚ
  tanh : ℚ → ℚ
  sqrt2OverPi : ℚ

/-- `F.softmax` over one score row in which masked entries are `-inf`
(represented as `none`): `exp(-inf) = 0`, then normalize by the row sum. -/
def softmaxMasked (P : Prim) (row : List (Option ℚ)) : Vec :=
  let e := row.map (fun o => o.elim 0 P.exp)
  e.map (fun x => x / e.sum)

/-- `nn.LayerNorm` over the last dimension: subtract the mean, divide by
`sqrt(var + 1e-5)`, then apply learned scale `g` and shift `b`. -/
def layerNorm (P : Prim) (g b : Vec) (r : Vec) : Vec :=
  let n : ℚ := r.length
  let mu := r.sum / n
  let sig := (r.map (fun x => (x - mu) ^ 2)).sum / n
  let d := P.sqrt (sig + 1 / 100000)
  vecAdd (List.zipWith (· * ·) (r.map (fun x => (x - mu) / d)) g) b

/-- `GPTConfig` from the source (`@dataclass`). -/
structure GPTConfig where
  block_size : ℕ
  vocab_size : ℕ
  n_layer : ℕ
  n_head : ℕ
  n_embd : ℕ

namespace NewGELU

/-- `NewGELU.forward`, over the embedded rationals with abstract kernels:
`0.5 * x * (1 + tanh(sqrt(2/pi) * (x + 0.044715 * x^3)))`. -/
def forwardQ (P : Prim) (x : ℚ) : ℚ :=
  1 / 2 * x * (1 + P.tanh (P.sqrt2OverPi * (x + 44715 / 1000000 * x ^ 3)))

end NewGELU

/-- The parameters of one `CausalSelfAttention` module:
`c_attn : Linear(C, 3C)` and `c_proj : Linear(C, C)`. -/
structure AttnW where
  c_attn_w : Mat
  c_attn_b : Vec
  c_proj_w : Mat
  c_proj_b : Vec

namespace CausalSelfAttention

/-- Extract head `h`'s slice of width `hs` from a row (the `view`/`transpose`
reshaping of `q`, `k`, `v` into `(B, nh, T, hs)`). -/
def headSlice (hs h : ℕ) (r : Vec) : Vec := (r.drop (h * hs)).take hs

/-- Row `i` of the attention-score matrix for one head after
`att = (q @ k^T) / sqrt(hs)` and `masked_fill` of positions `j > i`
with `-inf` (`none`). -/
def scoreRow (P : Prim) (hs : ℕ) (qi : Vec) (k : Mat) (i : ℕ) : List (Option ℚ) :=
  (List.range k.length).map (fun j =>
    if j ≤ i then some (dot qi (k.getD j []) * (1 / P.sqrt (hs : ℚ))) else none)

/-- `att @ v`: combine the value rows with the softmax weights. -/
def weightedSum (hs : ℕ) (w : Vec) (vs : Mat) : Vec :=
  (List.zipWith scaleVec w vs).foldr vecAdd (List.replicate hs 0)

/-- One attention head: for every query position `i`, softmax the masked score
row and take the weighted sum of the value rows. -/
def headOut (P : Prim) (hs : ℕ) (q k v : Mat) : Mat :=
  (List.range q.length).map (fun i =>
    weightedSum hs (softmaxMasked P (scoreRow P hs (q.getD i []) k i)) v)

/-- `CausalSelfAttention.forward` on one batch element `x : (T, C)`:
project to `qkv`, split, run every head, reassemble the head outputs side by
side, and apply the output projection. -/
def forward (cfg : GPTConfig) (P : Prim) (w : AttnW) (x : Mat) : Mat :=
  let C := cfg.n_embd
  let hs := C / cfg.n_head
  let qkv := x.map (linear w.c_attn_w w.c_attn_b)
  let q := qkv.map (fun r => r.take C)
  let k := qkv.map (fun r => (r.drop C).take C)
  let v := qkv.map (fun r => r.drop (2 * C))
  let heads := (List.range cfg.n_head).map (fun h =>
    headOut P hs (q.map (headSlice hs h)) (k.map (headSlice hs h)) (v.map (headSlice hs h)))
  let y := (List.range x.length).map (fun i => (heads.map (fun m => m.getD i [])).flatten)
  y.map (linear w.c_proj_w w.c_proj_b)

/-- `CausalSelfAttention.forward` on a whole batch `(B, T, C)`; every tensor
operation in the source acts batch-elementwise. -/
def forwardBatched (cfg : GPTConfig) (P : Prim) (w : AttnW) (xb : List Mat) : List Mat :=
  xb.map (forward cfg P w)

end CausalSelfAttention

/-- The parameters of one `MLP` module: `c_fc : Linear(C, 4C)`,
`c_proj : Linear(4C, C)`. -/
structure MLPW where
  c_fc_w : Mat
  c_fc_b : Vec
  c_proj_w : Mat
  c_proj_b : Vec

namespace MLP

/-- `MLP.forward` on one batch element: expand, GELU, contract (rowwise). -/
def forward (P : Prim) (w : MLPW) (x : Mat) : Mat :=
  x.map (fun r =>
    linear w.c_proj_w w.c_proj_b ((linear w.c_fc_w w.c_fc_b r).map (NewGELU.forwardQ P)))

end MLP

/-- The parameters of one transformer `Block`. -/
structure BlockW where
  ln_1_w : Vec
  ln_1_b : Vec
  attn : AttnW
  ln_2_w : Vec
  ln_2_b : Vec
  mlp : MLPW

namespace Block

/-- `Block.forward`: `x ← x + attn(ln_1(x))`, then `x ← x + mlp(ln_2(x))`. -/
def forward (cfg : GPTConfig) (P : Prim) (w : BlockW) (x : Mat) : Mat :=
  let x1 := matAdd x
    (CausalSelfAttention.forward cfg P w.attn (x.map (layerNorm P w.ln_1_w w.ln_1_b)))
  matAdd x1 (MLP.forward P w.mlp (x1.map (layerNorm P w.ln_2_w w.ln_2_b)))

end Block

/-- The parameter tensors of a `GPT` model. By weight tying (source line 112)
the `lm_head` weight is the same storage as `wte`, so it does not appear as a
separate field; `GPT.forward` below projects with `wte`. -/
structure GPTW where
  wte : Mat
  wpe : Mat
  h : List BlockW
  ln_f_w : Vec
  ln_f_b : Vec

/-- `nn.Embedding` row lookup; rows of width `C`. -/
def embLookup (table : Mat) (C i : ℕ) : Vec := table.getD i (List.replicate C 0)

/-- One summand of the cross-entropy: `-log softmax(row)[t]`, i.e.
`log (Σ exp row) - row[t]`. -/
def ceTerm (P : Prim) (row : Vec) (t : ℤ) : ℚ :=
  P.log ((row.map P.exp).sum) - row.getD t.toNat 0

/-- Modelled from the spec: `F.cross_entropy(·, ·, ignore_index)` with the
default mean reduction (PyTorch collaborator, not part of this repository) —
the mean of `-log softmax(row)[target]` over exactly the rows whose target is
not the ignore index. -/
def cross_entropy (P : Prim) (rows : Mat) (ts : List ℤ) (ignore_index : ℤ) : ℚ :=
  let valid := (rows.zip ts).filter (fun p => p.2 ≠ ignore_index)
  (valid.map (fun p => ceTerm P p.1 p.2)).sum / valid.length

namespace GPT

/-- `GPT.forward`. Fails (the `assert`) iff the sequence length exceeds
`block_size`; otherwise: token plus position embeddings, the block stack, the
final layer norm, and the (tied) output projection — over the whole time
dimension with a loss when targets are given, over only the last position with
no loss when they are absent. -/
def forward (cfg : GPTConfig) (P : Prim) (w : GPTW) (idx : List (List ℕ))
    (targets : Option (List (List ℤ))) : Option (List Mat × Option ℚ) :=
  let t := (idx.headD []).length
  if t ≤ cfg.block_size then
    let posEmb := (List.range t).map (embLookup w.wpe cfg.n_embd)
    let x0 := idx.map (fun row => matAdd (row.map (embLookup w.wte cfg.n_embd)) posEmb)
    let xL := w.h.foldl (fun xb bw => xb.map (Block.forward cfg P bw)) x0
    let xf := xL.map (fun m => m.map (layerNorm P w.ln_f_w w.ln_f_b))
    match targets with
    | some ts =>
      let logits := xf.map (fun m => m.map (linearNB w.wte))
      some (logits, some (cross_entropy P logits.flatten ts.flatten (-1)))
    | none =>
      let logits := xf.map (fun m => [linearNB w.wte (m.getD (m.length - 1) [])])
      some (logits, none)
  else none

end GPT

/-- Lines 204-206 of `GPT.generate`: `v, _ = torch.topk(logits, min(k, n))`;
`logits[logits < v[:, [-1]]] = -inf`. The threshold is the `min(k, n)`-th
largest logit; every logit strictly below it becomes `-inf` (`none`). -/
def topkMask (sortDesc : Vec → Vec) (k : ℕ) (logits : Vec) : List (Option ℚ) :=
  let thr := (sortDesc logits).getD (min k logits.length - 1) 0
  logits.map (fun x => if x < thr then none else some x)

/-- Insert into a descending-sorted list (used to model `torch.topk`'s sorted
values). -/
def insertDesc (x : ℚ) : List ℚ → List ℚ
  | [] => [x]
  | y :: ys => if y ≤ x then x :: y :: ys else y :: insertDesc x ys

/-- Sort a row in descending order. -/
def sortDescQ (l : List ℚ) : List ℚ := l.foldr insertDesc []

namespace GPT

/-- One iteration of the `GPT.generate` loop: crop the context to the last
`block_size` tokens, run the forward pass without targets, take the final-step
logits, divide by the temperature, optionally apply the top-k mask, softmax,
sample, and append the sampled token to every row. `sample` abstracts
`torch.multinomial` (step index, batch row index, probabilities). -/
def generateStep (cfg : GPTConfig) (P : Prim) (w : GPTW)
    (sample : ℕ → ℕ → Vec → ℕ) (temperature : ℚ) (top_k : Option ℕ)
    (n : ℕ) (idx : List (List ℕ)) : Option (List (List ℕ)) :=
  let idx_cond := idx.map (fun r =>
    if r.length ≤ cfg.block_size then r else r.drop (r.length - cfg.block_size))
  match forward cfg P w idx_cond none with
  | none => none
  | some (logits, _) =>
    let nexts := (List.range logits.length).map (fun bi =>
      let m := logits.getD bi []
      let l := (m.getD (m.length - 1) []).map (· / temperature)
      let ml := match top_k with
        | none => l.map some
        | some k => topkMask sortDescQ k l
      sample n bi (softmaxMasked P ml))
    some (List.zipWith (fun r tok => r ++ [tok]) idx nexts)

/-- The `generate` loop, `max_new_tokens` iterations with no other stopping
condition. -/
def generateAux (cfg : GPTConfig) (P : Prim) (w : GPTW)
    (sample : ℕ → ℕ → Vec → ℕ) (temperature : ℚ) (top_k : Option ℕ) :
    ℕ → List (List ℕ) → ℕ → Option (List (List ℕ))
  | _, idx, 0 => some idx
  | n, idx, Nat.succ m =>
    match generateStep cfg P w sample temperature top_k n idx with
    | none => none
    | some idx2 => generateAux cfg P w sample temperature top_k (n + 1) idx2 m

/-- `GPT.generate`: complete the conditioning sequence `max_new_tokens` times,
feeding each prediction back in. -/
def generate (cfg : GPTConfig) (P : Prim) (w : GPTW)
    (sample : ℕ → ℕ → Vec → ℕ) (temperature : ℚ) (top_k : Option ℕ)
    (idx : List (List ℕ)) (max_new_tokens : ℕ) : Option (List (List ℕ)) :=
  generateAux cfg P w sample temperature top_k 0 idx max_new_tokens

end GPT

/-! ## Serialization (`write_tensors_fp32`, `write_model`) -/

/-- The hierarchical name of a tensor inside layer `i`. -/
def layerName (i : ℕ) (role : String) : String :=
  "transformer.h." ++ toString i ++ "." ++ role

/-- One `for i in range(L): write_fp32(...)` loop of `write_tensors_fp32`: the
concatenated bytes of one tensor kind across all layers. A tensor is abstracted
as the byte list `t name`. -/
def layerLoop {α : Type} (t : String → List α) (L : ℕ) (role : String) : List α :=
  ((List.range L).map (fun i => t (layerName i role))).flatten

/-- `write_tensors_fp32`: the version-1 checkpoint body, the concatenation of
the tensors in exactly the order of the source's write calls. -/
def write_tensors_fp32 {α : Type} (t : String → List α) (L : ℕ) : List α :=
  t "transformer.wte.weight" ++ t "transformer.wpe.weight"
  ++ layerLoop t L "attn.c_attn.weight"
  ++ layerLoop t L "attn.c_attn.bias"
  ++ layerLoop t L "attn.c_proj.weight"
  ++ layerLoop t L "attn.c_proj.bias"
  ++ layerLoop t L "mlp.c_fc.weight"
  ++ layerLoop t L "mlp.c_fc.bias"
  ++ layerLoop t L "mlp.c_proj.weight"
  ++ layerLoop t L "mlp.c_proj.bias"
  ++ layerLoop t L "ln_1.weight"
  ++ layerLoop t L "ln_1.bias"
  ++ layerLoop t L "ln_2.weight"
  ++ layerLoop t L "ln_2.bias"
  ++ t "transformer.ln_f.weight" ++ t "transformer.ln_f.bias"

/-- The 256-int32 header `write_model` emits for the full-precision
(version 1) checkpoint: magic, version, the five config fields, zero padding. -/
def modelHeaderV1 (cfg : GPTConfig) : List ℤ :=
  [20240326, 1, (cfg.block_size : ℤ), (cfg.vocab_size : ℤ), (cfg.n_layer : ℤ),
    (cfg.n_head : ℤ), (cfg.n_embd : ℤ)] ++ List.replicate 249 0

/-- `write_model` at `dtype="float32"`: the file is the header followed by the
version-1 body, modelled as the pair (header ints, body bytes). -/
def write_model {α : Type} (cfg : GPTConfig) (t : String → List α) : List ℤ × List α :=
  (modelHeaderV1 cfg, write_tensors_fp32 t cfg.n_layer)

/-- The checkpoint body order exactly as the claim words it: token embedding,
position embedding, then for every layer in layer order each of the eight
attention / feed-forward tensors of that layer, then for every layer the two
normalization weight/bias pairs, then the final normalization weight and
bias. -/
def claimedBodyV1 {α : Type} (t : String → List α) (L : ℕ) : List α :=
  t "transformer.wte.weight" ++ t "transformer.wpe.weight"
  ++ ((List.range L).map (fun i =>
        t (layerName i "attn.c_attn.weight") ++ t (layerName i "attn.c_attn.bias")
        ++ t (layerName i "attn.c_proj.weight") ++ t (layerName i "attn.c_proj.bias")
        ++ t (layerName i "mlp.c_fc.weight") ++ t (layerName i "mlp.c_fc.bias")
        ++ t (layerName i "mlp.c_proj.weight") ++ t (layerName i "mlp.c_proj.bias"))).flatten
  ++ ((List.range L).map (fun i =>
        t (layerName i "ln_1.weight") ++ t (layerName i "ln_1.bias")
        ++ t (layerName i "ln_2.weight") ++ t (layerName i "ln_2.bias"))).flatten
  ++ t "transformer.ln_f.weight" ++ t "transformer.ln_f.bias"

/-- The version-1 tensor name order actually written: the two embeddings, then
each tensor kind grouped across all layers (kind-major, layer-minor), then the
final normalization pair. -/
def fp32NamesV1 (L : ℕ) : List String :=
  ["transformer.wte.weight", "transformer.wpe.weight"]
  ++ ((["attn.c_attn.weight", "attn.c_attn.bias", "attn.c_proj.weight", "attn.c_proj.bias",
       "mlp.c_fc.weight", "mlp.c_fc.bias", "mlp.c_proj.weight", "mlp.c_proj.bias",
       "ln_1.weight", "ln_1.bias", "ln_2.weight", "ln_2.bias"].map
      (fun role => (List.range L).map (fun i => layerName i role))).flatten)
  ++ ["transformer.ln_f.weight", "transformer.ln_f.bias"]

/-! ## The parameter store and weight tying (`GPT.__init__`, line 112) -/

/-- The mutable parameter store of a module tree: a table from parameter names
to buffer ids, plus a heap from buffer ids to tensor contents. Two names alias
exactly when they map to the same buffer id. -/
structure ParamStore (α : Type) where
  names : List (String × ℕ)
  heap : List α

/-- Read the tensor a parameter name currently denotes. -/
def ParamStore.read {α : Type} (d : α) (s : ParamStore α) (n : String) : α :=
  match s.names.find? (fun p => p.1 == n) with
  | some p => s.heap.getD p.2 d
  | none => d

/-- An in-place tensor update (`copy_` during checkpoint loading, an optimizer
step during training) through a parameter name: the buffer that name references
is overwritten in place; the name table never changes. -/
def ParamStore.writeThrough {α : Type} (s : ParamStore α) (n : String) (f : α → α)
    (d : α) : ParamStore α :=
  match s.names.find? (fun p => p.1 == n) with
  | some p => { s with heap := s.heap.set p.2 (f (s.heap.getD p.2 d)) }
  | none => s

/-- Fold a finite sequence of in-place updates over the store. -/
def ParamStore.applyUpdates {α : Type} (d : α) (s : ParamStore α)
    (us : List (String × (α → α))) : ParamStore α :=
  us.foldl (fun s u => s.writeThrough u.1 u.2 d) s

namespace GPT

/-- The parameter table `GPT.__init__` builds: `wte`, `wpe`, the block
parameters (abstracted as the list `others`), `ln_f`, and `lm_head`; line 112
(`self.transformer.wte.weight = self.lm_head.weight`) makes
`transformer.wte.weight` and `lm_head.weight` reference one buffer. -/
def initStore {α : Type} (tied wpe0 lnfw0 lnfb0 : α) (others : List (String × α)) :
    ParamStore α :=
  { names := [("transformer.wte.weight", 0), ("transformer.wpe.weight", 1),
              ("transformer.ln_f.weight", 2), ("transformer.ln_f.bias", 3),
              ("lm_head.weight", 0)]
      ++ others.enum.map (fun p => (p.2.1, 4 + p.1)),
    heap := [tied, wpe0, lnfw0, lnfb0] ++ others.map Prod.snd }

end GPT

/-! ## `GPT.from_pretrained`'s checking skeleton -/

/-- A tensor shape (`torch.Size`). -/
abbrev Shape := List ℕ

/-- Python's `str.endswith` on parameter names. -/
def strEndsWith (s suf : String) : Bool := suf.data.isSuffixOf s.data

/-- The four weight kinds stored transposed ("Conv1D") in the source
checkpoint. -/
def isTransposedKey (k : String) : Bool :=
  strEndsWith k "attn.c_attn.weight" || strEndsWith k "attn.c_proj.weight"
  || strEndsWith k "mlp.c_fc.weight" || strEndsWith k "mlp.c_proj.weight"

/-- The model-side key list: all state-dict keys except the causal-mask buffer
`.attn.bias`. -/
def modelKeys (sd : List (String × Shape)) : List String :=
  (sd.map Prod.fst).filter (fun k => ¬ strEndsWith k ".attn.bias")

/-- The checkpoint-side entries: all state-dict entries except the
non-persisted `.attn.masked_bias` and `.attn.bias` buffers. -/
def hfPairs (sd_hf : List (String × Shape)) : List (String × Shape) :=
  (sd_hf.filter (fun p => ¬ strEndsWith p.1 ".attn.masked_bias")).filter
    (fun p => ¬ strEndsWith p.1 ".attn.bias")

/-- One iteration of the copy loop: the key must exist in the model state dict
(the `sd[k]` lookup), and the shapes must agree after reversing (`[::-1]`) the
shape of the transposed kinds. -/
def keyOk (sd : List (String × Shape)) (p : String × Shape) : Bool :=
  match sd.find? (fun q => q.1 == p.1) with
  | none => false
  | some q => if isTransposedKey p.1 then p.2.reverse == q.2 else p.2 == q.2

/-- `GPT.from_pretrained`, reduced to its checking skeleton over the two state
dicts as (name, shape) lists: the key-count assert, then for every checkpoint
key the membership and shape asserts; the load succeeds iff every check
passes. -/
def from_pretrained (sd sd_hf : List (String × Shape)) : Except String Unit :=
  if (hfPairs sd_hf).length = (modelKeys sd).length then
    if (hfPairs sd_hf).all (keyOk sd) then Except.ok ()
    else Except.error "mismatched shape or missing key"
  else Except.error "mismatched keys"

/-! ## The GELU nonlinearity over the reals -/

namespace NewGELU

/-- `NewGELU.forward` over the reals: the exact tanh-approximation GELU
`0.5 * x * (1 + tanh(sqrt(2/pi) * (x + 0.044715 * x^3)))` the source
computes. -/
noncomputable def forwardR (x : ℝ) : ℝ :=
  1 / 2 * x * (1 + Real.tanh (Real.sqrt (2 / Real.pi) * (x + 44715 / 1000000 * x ^ 3)))

end NewGELU

/-! ## List helpers -/

theorem getD_map {α β : Type} (f : α → β) (l : List α) {i : ℕ} (hi : i < l.length)
    (d : α) (d' : β) : (l.map f).getD i d' = f (l.getD i d) := by
  simp [List.getD_eq_getElem?_getD, List.getElem?_map, List.getElem?_eq_getElem hi]

theorem getD_zipWith {α β γ : Type} (f : α → β → γ) (as : List α) (bs : List β) {i : ℕ}
    (ha : i < as.length) (hb : i < bs.length) (da : α) (db : β) (dc : γ) :
    (List.zipWith f as bs).getD i dc = f (as.getD i da) (bs.getD i db) := by
  simp [List.getD_eq_getElem?_getD, List.getElem?_zipWith,
    List.getElem?_eq_getElem ha, List.getElem?_eq_getElem hb]

theorem getD_range {n i : ℕ} (hi : i < n) (d : ℕ) : (List.range n).getD i d = i := by
  simp [List.getD_eq_getElem?_getD, List.getElem?_eq_getElem, hi]

theorem exists_of_mem_zipWith {α β γ : Type} {f : α → β → γ} {as : List α} {bs : List β}
    {c : γ} (h : c ∈ List.zipWith f as bs) : ∃ a b, a ∈ as ∧ b ∈ bs ∧ c = f a b := by
  induction as generalizing bs with
  | nil => simp at h
  | cons a as ih =>
    cases bs with
    | nil => simp at h
    | cons b bs =>
      rcases (by simpa using h : c = f a b ∨ c ∈ List.zipWith f as bs) with h1 | h1
      · exact ⟨a, b, by simp, by simp, h1⟩
      · obtain ⟨a1, b1, ha, hb1, rfl⟩ := ih h1
        exact ⟨a1, b1, by simp [ha], by simp [hb1], rfl⟩

/-! ## C6: the sequence-length guard of `GPT.forward` -/

/-- C6: for a batch of shape `(B, T)`, `GPT.forward` aborts (returns `none`,
the failed `assert`) precisely when `T` exceeds `block_size`; for
`T ≤ block_size` the length check passes and a result is produced — the input
is never truncated. -/
theorem forward_fails_iff_too_long (cfg : GPTConfig) (P : Prim) (w : GPTW)
    (idx : List (List ℕ)) (targets : Option (List (List ℤ))) (T : ℕ)
    (hne : idx ≠ []) (hrows : ∀ r ∈ idx, r.length = T) :
    GPT.forward cfg P w idx targets = none ↔ cfg.block_size < T := by
  cases idx with
  | nil => cases hne rfl
  | cons r rest =>
    have ht : r.length = T := hrows r (by simp)
    by_cases hc : T ≤ cfg.block_size
    · cases targets <;> simp [GPT.forward, List.headD_cons, ht, hc]
    · simp [GPT.forward, List.headD_cons, ht, hc]
      omega

/-- Witness for C6 at a concrete model: block size 1, input length 2 fails. -/
theorem forward_fails_iff_too_long_witness :
    GPT.forward ⟨1, 1, 0, 1, 1⟩ ⟨id, id, id, id, 1⟩ ⟨[], [], [], [], []⟩ [[0, 1]] none
      = none :=
  (forward_fails_iff_too_long ⟨1, 1, 0, 1, 1⟩ ⟨id, id, id, id, 1⟩ ⟨[], [], [], [], []⟩
    [[0, 1]] none 2 (by decide) (by decide)).mpr (by decide)

/-! ## C2: weight tying as a storage-aliasing invariant -/

theorem ParamStore.names_writeThrough {α : Type} (s : ParamStore α) (n : String)
    (f : α → α) (d : α) : (s.writeThrough n f d).names = s.names := by
  unfold ParamStore.writeThrough
  cases s.names.find? (fun p => p.1 == n) <;> rfl

theorem ParamStore.names_applyUpdates {α : Type} (d : α) (s : ParamStore α)
    (us : List (String × (α → α))) : (s.applyUpdates d us).names = s.names := by
  induction us generalizing s with
  | nil => rfl
  | cons u us ih =>
    show ((s.writeThrough u.1 u.2 d).applyUpdates d us).names = s.names
    rw [ih, ParamStore.names_writeThrough]

theorem ParamStore.read_eq_of_same_buffer {α : Type} (d : α) (s : ParamStore α)
    (n m : String)
    (h : (s.names.find? (fun p => p.1 == n)).map Prod.snd
        = (s.names.find? (fun p => p.1 == m)).map Prod.snd) :
    s.read d n = s.read d m := by
  unfold ParamStore.read
  cases h1 : s.names.find? (fun p => p.1 == n) <;>
    cases h2 : s.names.find? (fun p => p.1 == m) <;>
      simp [h1, h2] at h ⊢
  rw [h]

theorem initStore_find_wte {α : Type} (tied wpe0 lnfw0 lnfb0 : α)
    (others : List (String × α)) :
    ((GPT.initStore tied wpe0 lnfw0 lnfb0 others).names.find?
      (fun p => p.1 == "transformer.wte.weight")) = some ("transformer.wte.weight", 0) := by
  simp [GPT.initStore, List.find?]

theorem initStore_find_lm_head {α : Type} (tied wpe0 lnfw0 lnfb0 : α)
    (others : List (String × α)) :
    ((GPT.initStore tied wpe0 lnfw0 lnfb0 others).names.find?
      (fun p => p.1 == "lm_head.weight")) = some ("lm_head.weight", 0) := by
  simp [GPT.initStore, List.find?]

/-- C2: the token-embedding parameter and the output-projection parameter are
one storage. In the parameter store `GPT.__init__` builds, both names resolve
to the same buffer id, and after any finite sequence of in-place updates
(optimizer steps, `copy_` during checkpoint loading) through any parameter
names, the two names still resolve to the same buffer id and read identical
values. -/
theorem wte_lm_head_tied {α : Type} (d tied wpe0 lnfw0 lnfb0 : α)
    (others : List (String × α)) (us : List (String × (α → α))) :
    (((GPT.initStore tied wpe0 lnfw0 lnfb0 others).applyUpdates d us).names.find?
        (fun p => p.1 == "transformer.wte.weight")).map Prod.snd
      = (((GPT.initStore tied wpe0 lnfw0 lnfb0 others).applyUpdates d us).names.find?
        (fun p => p.1 == "lm_head.weight")).map Prod.snd
    ∧ ((GPT.initStore tied wpe0 lnfw0 lnfb0 others).applyUpdates d us).read d
        "transformer.wte.weight"
      = ((GPT.initStore tied wpe0 lnfw0 lnfb0 others).applyUpdates d us).read d
        "lm_head.weight" := by
  have hn := ParamStore.names_applyUpdates d (GPT.initStore tied wpe0 lnfw0 lnfb0 others) us
  have hid : (((GPT.initStore tied wpe0 lnfw0 lnfb0 others).applyUpdates d us).names.find?
        (fun p => p.1 == "transformer.wte.weight")).map Prod.snd
      = (((GPT.initStore tied wpe0 lnfw0 lnfb0 others).applyUpdates d us).names.find?
        (fun p => p.1 == "lm_head.weight")).map Prod.snd := by
    rw [hn, initStore_find_wte, initStore_find_lm_head]
    simp
  exact ⟨hid, ParamStore.read_eq_of_same_buffer d _ _ _ hid⟩

/-! ## C4: the version-1 checkpoint body order -/

/-- The concrete tensor map used to separate the two candidate body orders:
every tensor is empty except layer 1's attention in-projection weight and
layer 0's attention in-projection bias. -/
def sepTensors : String → List ℕ := fun s =>
  if s = "transformer.h.1.attn.c_attn.weight" then [2]
  else if s = "transformer.h.0.attn.c_attn.bias" then [1] else []

/-- C4 counterexample: for a two-layer model the body `write_model` writes is
not the layer-major concatenation the claim describes — the code writes layer
1's attention in-projection weight before layer 0's attention in-projection
bias, the claimed order writes them the other way around. -/
theorem checkpoint_body_not_claimed_order :
    (write_model ⟨4, 5, 2, 1, 2⟩ sepTensors).2 ≠ claimedBodyV1 sepTensors 2 := by
  decide

/-- C4 (amended): the version-1 checkpoint body written after the header is the
concatenation of the tensors in the order `fp32NamesV1` — token embedding,
position embedding, then each of the eight attention / feed-forward tensor
kinds grouped across all layers (kind-major: all layers' in-projection
weights, then all layers' in-projection biases, ...), then the four
normalization tensor kinds each grouped across all layers, then the final
normalization weight and bias. -/
theorem checkpoint_body_order {α : Type} (cfg : GPTConfig) (t : String → List α) :
    (write_model cfg t).2 = ((fp32NamesV1 cfg.n_layer).map t).flatten := by
  simp [write_model, write_tensors_fp32, fp32NamesV1, layerLoop,
    List.map_append, List.flatten_append, List.map_map, Function.comp_def,
    List.append_assoc]

/-! ## C8: the generation loop -/

theorem getD_mem_of_lt {α : Type} {l : List α} {j : ℕ} (hj : j < l.length) (d : α) :
    l.getD j d ∈ l := by
  rw [List.getD_eq_getElem?_getD, List.getElem?_eq_getElem hj]
  exact List.getElem_mem hj

theorem length_foldl_mapStep {α β : Type} (F : β → α → α) (bs : List β) :
    ∀ x : List α, (bs.foldl (fun xb bw => xb.map (F bw)) x).length = x.length := by
  induction bs with
  | nil => intro x; rfl
  | cons b bs ih => intro x; rw [List.foldl_cons, ih, List.length_map]

/-- When the length guard passes and no targets are given, `GPT.forward`
succeeds with one logits matrix per batch row and no loss. -/
theorem forward_no_targets_some (cfg : GPTConfig) (P : Prim) (w : GPTW)
    (idx : List (List ℕ)) (h : (idx.headD []).length ≤ cfg.block_size) :
    ∃ logits, GPT.forward cfg P w idx none = some (logits, none) ∧
      logits.length = idx.length := by
  simp only [GPT.forward, if_pos h]
  refine ⟨_, rfl, ?_⟩
  rw [List.length_map, List.length_map, length_foldl_mapStep (Block.forward cfg P) w.h,
    List.length_map]

/-- Every `generate` iteration succeeds (the cropped context always passes the
length guard) and appends exactly one sampled token to every batch row. -/
theorem generateStep_spec (cfg : GPTConfig) (P : Prim) (w : GPTW)
    (sample : ℕ → ℕ → Vec → ℕ) (temperature : ℚ) (top_k : Option ℕ)
    (n : ℕ) (idx : List (List ℕ)) :
    ∃ toks : List ℕ, toks.length = idx.length ∧
      GPT.generateStep cfg P w sample temperature top_k n idx
        = some (List.zipWith (fun r tok => r ++ [tok]) idx toks) := by
  have hcond : (((idx.map (fun r =>
      if r.length ≤ cfg.block_size then r
      else r.drop (r.length - cfg.block_size))).headD []).length ≤ cfg.block_size) := by
    cases idx with
    | nil => simp
    | cons r rest =>
      simp only [List.map_cons, List.headD_cons]
      by_cases hr : r.length ≤ cfg.block_size
      · simp [hr]
      · simp only [hr, if_false, List.length_drop]
        omega
  obtain ⟨logits, hfwd, hlen⟩ := forward_no_targets_some cfg P w _ hcond
  refine ⟨(List.range logits.length).map (fun bi =>
      let m := logits.getD bi []
      let l := (m.getD (m.length - 1) []).map (· / temperature)
      let ml := match top_k with
        | none => l.map some
        | some k => topkMask sortDescQ k l
      sample n bi (softmaxMasked P ml)), by simp [hlen], ?_⟩
  simp only [GPT.generateStep, hfwd]

theorem generateAux_spec (cfg : GPTConfig) (P : Prim) (w : GPTW)
    (sample : ℕ → ℕ → Vec → ℕ) (temperature : ℚ) (top_k : Option ℕ) :
    ∀ (m n : ℕ) (idx : List (List ℕ)), ∃ res,
      GPT.generateAux cfg P w sample temperature top_k n idx m = some res ∧
      res.length = idx.length ∧
      ∀ j, j < idx.length →
        ∃ suf, suf.length = m ∧ res.getD j [] = idx.getD j [] ++ suf := by
  intro m
  induction m with
  | zero =>
    intro n idx
    exact ⟨idx, rfl, rfl, fun j hj => ⟨[], rfl, by simp⟩⟩
  | succ m ih =>
    intro n idx
    obtain ⟨toks, htl, hstep⟩ :=
      generateStep_spec cfg P w sample temperature top_k n idx
    obtain ⟨res, hres, hlen, hsuf⟩ :=
      ih (n + 1) (List.zipWith (fun r tok => r ++ [tok]) idx toks)
    have hzl : (List.zipWith (fun r tok => r ++ [tok]) idx toks).length = idx.length := by
      simp [htl]
    refine ⟨res, ?_, by rw [hlen, hzl], ?_⟩
    · simp only [GPT.generateAux, hstep]
      exact hres
    · intro j hj
      obtain ⟨suf, hsl, hrow⟩ := hsuf j (by rw [hzl]; exact hj)
      refine ⟨toks.getD j 0 :: suf, by simp [hsl], ?_⟩
      rw [hrow, getD_zipWith _ _ _ hj (by rw [htl]; exact hj) [] 0 []]
      simp

/-- C8: `GPT.generate` performs exactly `max_new_tokens` iterations — no token
value stops it early — and returns, for every batch row of the conditioning
sequence (length `t`), a row of length `t + max_new_tokens` whose first `t`
tokens are the original conditioning row; cropping the context to the last
`block_size` tokens affects only the model's input window, never the returned
sequence. -/
theorem generate_length_and_prefix (cfg : GPTConfig) (P : Prim) (w : GPTW)
    (sample : ℕ → ℕ → Vec → ℕ) (temperature : ℚ) (top_k : Option ℕ)
    (idx : List (List ℕ)) (t max_new_tokens : ℕ)
    (hrows : ∀ r ∈ idx, r.length = t) :
    ∃ res, GPT.generate cfg P w sample temperature top_k idx max_new_tokens = some res ∧
      res.length = idx.length ∧
      ∀ j, j < idx.length →
        (res.getD j []).length = t + max_new_tokens ∧
        (res.getD j []).take t = idx.getD j [] := by
  obtain ⟨res, hres, hlen, hsuf⟩ :=
    generateAux_spec cfg P w sample temperature top_k max_new_tokens 0 idx
  refine ⟨res, hres, hlen, ?_⟩
  intro j hj
  obtain ⟨suf, hsl, hrow⟩ := hsuf j hj
  have hjr : (idx.getD j []).length = t := hrows _ (getD_mem_of_lt hj [])
  rw [hrow]
  constructor
  · simp only [List.length_append, hjr, hsl]
  · rw [← hjr, List.take_left]

/-- Witness for C8: one conditioning row of length 1 and two new tokens. -/
theorem generate_length_and_prefix_witness :
    ∃ res, GPT.generate ⟨1, 1, 0, 1, 1⟩ ⟨id, id, id, id, 1⟩ ⟨[], [], [], [], []⟩
        (fun _ _ _ => 0) 1 none [[5]] 2 = some res ∧
      res.length = ([[5]] : List (List ℕ)).length ∧
      ∀ j, j < ([[5]] : List (List ℕ)).length →
        (res.getD j []).length = 1 + 2 ∧
        (res.getD j []).take 1 = ([[5]] : List (List ℕ)).getD j [] :=
  generate_length_and_prefix ⟨1, 1, 0, 1, 1⟩ ⟨id, id, id, id, 1⟩ ⟨[], [], [], [], []⟩
    (fun _ _ _ => 0) 1 none [[5]] 1 2 (by decide)

/-! ## C1: output shapes of `GPT.forward` -/

/-- Shape well-formedness of one attention module's parameters relative to the
config (`c_attn : Linear(C, 3C)`, `c_proj : Linear(C, C)`). -/
structure WFAttn (cfg : GPTConfig) (w : AttnW) : Prop where
  caw : w.c_attn_w.length = 3 * cfg.n_embd
  cab : w.c_attn_b.length = 3 * cfg.n_embd
  cpw : w.c_proj_w.length = cfg.n_embd
  cpb : w.c_proj_b.length = cfg.n_embd

/-- Shape well-formedness of one MLP module's parameters
(`c_fc : Linear(C, 4C)`, `c_proj : Linear(4C, C)`). -/
structure WFMLP (cfg : GPTConfig) (w : MLPW) : Prop where
  fcw : w.c_fc_w.length = 4 * cfg.n_embd
  fcb : w.c_fc_b.length = 4 * cfg.n_embd
  cpw : w.c_proj_w.length = cfg.n_embd
  cpb : w.c_proj_b.length = cfg.n_embd

/-- Shape well-formedness of one transformer block's parameters. -/
structure WFBlock (cfg : GPTConfig) (w : BlockW) : Prop where
  attn : WFAttn cfg w.attn
  mlp : WFMLP cfg w.mlp
  ln1w : w.ln_1_w.length = cfg.n_embd
  ln1b : w.ln_1_b.length = cfg.n_embd
  ln2w : w.ln_2_w.length = cfg.n_embd
  ln2b : w.ln_2_b.length = cfg.n_embd

/-- Shape well-formedness of the whole model's parameters. -/
structure WFGPT (cfg : GPTConfig) (w : GPTW) : Prop where
  wte_len : w.wte.length = cfg.vocab_size
  wte_rows : ∀ r ∈ w.wte, r.length = cfg.n_embd
  wpe_rows : ∀ r ∈ w.wpe, r.length = cfg.n_embd
  blocks : ∀ bw ∈ w.h, WFBlock cfg bw
  lnfw : w.ln_f_w.length = cfg.n_embd
  lnfb : w.ln_f_b.length = cfg.n_embd

theorem length_linear (w : Mat) (b x : Vec) :
    (linear w b x).length = min w.length b.length := by
  simp [linear, vecAdd, matVec, List.length_zipWith]

theorem length_layerNorm (P : Prim) (g b r : Vec) :
    (layerNorm P g b r).length = min (min r.length g.length) b.length := by
  simp [layerNorm, vecAdd, List.length_zipWith, List.length_map, min_assoc]

theorem length_layerNorm_of {C : ℕ} (P : Prim) {g b r : Vec}
    (hg : g.length = C) (hb : b.length = C) (hr : r.length = C) :
    (layerNorm P g b r).length = C := by
  simp [length_layerNorm, hg, hb, hr]

theorem length_embLookup (table : Mat) (C i : ℕ) (h : ∀ r ∈ table, r.length = C) :
    (embLookup table C i).length = C := by
  unfold embLookup
  by_cases hi : i < table.length
  · exact h _ (getD_mem_of_lt hi _)
  · rw [List.getD_eq_getElem?_getD, List.getElem?_eq_none (le_of_not_lt hi)]
    simp

theorem matAdd_length (a b : Mat) : (matAdd a b).length = min a.length b.length := by
  simp [matAdd, List.length_zipWith]

theorem matAdd_rows {a b : Mat} {C : ℕ} (ha : ∀ r ∈ a, r.length = C)
    (hb : ∀ r ∈ b, r.length = C) : ∀ r ∈ matAdd a b, r.length = C := by
  intro r hr
  obtain ⟨u, v, hu, hv, rfl⟩ := exists_of_mem_zipWith hr
  simp [vecAdd, List.length_zipWith, ha u hu, hb v hv]

theorem attn_forward_shape (cfg : GPTConfig) (P : Prim) {w : AttnW} (hW : WFAttn cfg w)
    (x : Mat) :
    (CausalSelfAttention.forward cfg P w x).length = x.length ∧
    ∀ r ∈ CausalSelfAttention.forward cfg P w x, r.length = cfg.n_embd := by
  constructor
  · simp [CausalSelfAttention.forward]
  · intro r hr
    simp only [CausalSelfAttention.forward, List.mem_map] at hr
    obtain ⟨y, _, rfl⟩ := hr
    simp [length_linear, hW.cpw, hW.cpb]

theorem mlp_forward_shape (cfg : GPTConfig) (P : Prim) {w : MLPW} (hW : WFMLP cfg w)
    (x : Mat) :
    (MLP.forward P w x).length = x.length ∧
    ∀ r ∈ MLP.forward P w x, r.length = cfg.n_embd := by
  constructor
  · simp [MLP.forward]
  · intro r hr
    simp only [MLP.forward, List.mem_map] at hr
    obtain ⟨y, _, rfl⟩ := hr
    simp [length_linear, hW.cpw, hW.cpb]

theorem block_forward_shape (cfg : GPTConfig) (P : Prim) {bw : BlockW}
    (hbw : WFBlock cfg bw) {x : Mat} {T : ℕ} (hx : x.length = T)
    (hrows : ∀ r ∈ x, r.length = cfg.n_embd) :
    (Block.forward cfg P bw x).length = T ∧
    ∀ r ∈ Block.forward cfg P bw x, r.length = cfg.n_embd := by
  have hln1 : ∀ r ∈ x.map (layerNorm P bw.ln_1_w bw.ln_1_b), r.length = cfg.n_embd := by
    intro r hr
    obtain ⟨u, hu, rfl⟩ := List.mem_map.1 hr
    exact length_layerNorm_of P hbw.ln1w hbw.ln1b (hrows u hu)
  obtain ⟨hal, har⟩ := attn_forward_shape cfg P hbw.attn
    (x.map (layerNorm P bw.ln_1_w bw.ln_1_b))
  have hx1l : (matAdd x (CausalSelfAttention.forward cfg P bw.attn
      (x.map (layerNorm P bw.ln_1_w bw.ln_1_b)))).length = T := by
    rw [matAdd_length, hal, List.length_map, hx, min_self]
  have hx1r : ∀ r ∈ matAdd x (CausalSelfAttention.forward cfg P bw.attn
      (x.map (layerNorm P bw.ln_1_w bw.ln_1_b))), r.length = cfg.n_embd :=
    matAdd_rows hrows har
  have hln2 : ∀ r ∈ (matAdd x (CausalSelfAttention.forward cfg P bw.attn
      (x.map (layerNorm P bw.ln_1_w bw.ln_1_b)))).map (layerNorm P bw.ln_2_w bw.ln_2_b),
      r.length = cfg.n_embd := by
    intro r hr
    obtain ⟨u, hu, rfl⟩ := List.mem_map.1 hr
    exact length_layerNorm_of P hbw.ln2w hbw.ln2b (hx1r u hu)
  obtain ⟨hml, hmr⟩ := mlp_forward_shape cfg P hbw.mlp
    ((matAdd x (CausalSelfAttention.forward cfg P bw.attn
      (x.map (layerNorm P bw.ln_1_w bw.ln_1_b)))).map (layerNorm P bw.ln_2_w bw.ln_2_b))
  constructor
  · show (matAdd _ _).length = T
    rw [matAdd_length, hml, List.length_map, hx1l, min_self]
  · exact matAdd_rows hx1r hmr

theorem foldl_blocks_shape (cfg : GPTConfig) (P : Prim) (bs : List BlockW)
    (hbs : ∀ bw ∈ bs, WFBlock cfg bw) :
    ∀ (xb : List Mat) (T : ℕ),
      (∀ m ∈ xb, m.length = T ∧ ∀ r ∈ m, r.length = cfg.n_embd) →
      (bs.foldl (fun xb bw => xb.map (Block.forward cfg P bw)) xb).length = xb.length ∧
      ∀ m ∈ bs.foldl (fun xb bw => xb.map (Block.forward cfg P bw)) xb,
        m.length = T ∧ ∀ r ∈ m, r.length = cfg.n_embd := by
  induction bs with
  | nil => exact fun xb T h => ⟨rfl, h⟩
  | cons b bs ih =>
    intro xb T h
    have hb : WFBlock cfg b := hbs b (by simp)
    have hstep : ∀ m ∈ xb.map (Block.forward cfg P b),
        m.length = T ∧ ∀ r ∈ m, r.length = cfg.n_embd := by
      intro m hm
      obtain ⟨m0, hm0, rfl⟩ := List.mem_map.1 hm
      exact block_forward_shape cfg P hb (h m0 hm0).1 (h m0 hm0).2
    obtain ⟨h1, h2⟩ := ih (fun bw hbw => hbs bw (by simp [hbw])) (xb.map (Block.forward cfg P b)) T hstep
    exact ⟨by rw [List.foldl_cons, h1, List.length_map], by rw [List.foldl_cons]; exact h2⟩

theorem length_linearNB (w : Mat) (x : Vec) : (linearNB w x).length = w.length := by
  simp [linearNB, matVec]

theorem x0_shape (cfg : GPTConfig) (w : GPTW) (hW : WFGPT cfg w)
    (idx : List (List ℕ)) (T : ℕ) (hrows : ∀ r ∈ idx, r.length = T)
    (t0 : ℕ) (ht0 : t0 = T) :
    ∀ m ∈ idx.map (fun row => matAdd (row.map (embLookup w.wte cfg.n_embd))
        ((List.range t0).map (embLookup w.wpe cfg.n_embd))),
      m.length = T ∧ ∀ r ∈ m, r.length = cfg.n_embd := by
  intro m hm
  obtain ⟨row, hrow, rfl⟩ := List.mem_map.1 hm
  constructor
  · rw [matAdd_length, List.length_map, List.length_map, List.length_range,
      hrows row hrow, ht0, min_self]
  · refine matAdd_rows ?_ ?_
    · intro r hr
      obtain ⟨i, _, rfl⟩ := List.mem_map.1 hr
      exact length_embLookup w.wte cfg.n_embd i hW.wte_rows
    · intro r hr
      obtain ⟨i, _, rfl⟩ := List.mem_map.1 hr
      exact length_embLookup w.wpe cfg.n_embd i hW.wpe_rows

/-- C1: for a well-formed model with `n_embd % n_head = 0` and a token batch of
shape `(B, T)` with `0 < B`, `0 < T ≤ block_size`, `GPT.forward` returns
logits of shape `(B, T, vocab_size)` together with a loss when targets are
supplied, and logits of shape `(B, 1, vocab_size)` together with no loss when
targets are absent. -/
theorem forward_logits_shape (cfg : GPTConfig) (P : Prim) (w : GPTW)
    (hW : WFGPT cfg w) (hmod : cfg.n_embd % cfg.n_head = 0)
    (idx : List (List ℕ)) (B T : ℕ) (hB : idx.length = B) (hBpos : 0 < B)
    (hTpos : 0 < T) (hrows : ∀ r ∈ idx, r.length = T) (hT : T ≤ cfg.block_size)
    (ts : List (List ℤ)) :
    (∃ logits loss, GPT.forward cfg P w idx (some ts) = some (logits, some loss) ∧
      logits.length = B ∧
      ∀ m ∈ logits, m.length = T ∧ ∀ r ∈ m, r.length = cfg.vocab_size) ∧
    (∃ logits, GPT.forward cfg P w idx none = some (logits, none) ∧
      logits.length = B ∧
      ∀ m ∈ logits, m.length = 1 ∧ ∀ r ∈ m, r.length = cfg.vocab_size) := by
  obtain ⟨r0, rest, rfl⟩ : ∃ r0 rest, idx = r0 :: rest := by
    cases idx with
    | nil => rw [List.length_nil] at hB; omega
    | cons a l => exact ⟨a, l, rfl⟩
  have ht : r0.length = T := hrows r0 (by simp)
  have hguard : ((r0 :: rest).headD []).length ≤ cfg.block_size := by
    rw [List.headD_cons, ht]; exact hT
  have hx0m := x0_shape cfg w hW (r0 :: rest) T hrows ((r0 :: rest).headD []).length
    (by rw [List.headD_cons, ht])
  constructor
  · simp only [GPT.forward, if_pos hguard]
    refine ⟨_, _, rfl, ?_, ?_⟩
    · rw [List.length_map, List.length_map,
        length_foldl_mapStep (Block.forward cfg P) w.h, List.length_map, hB]
    · intro m hm
      obtain ⟨m1, hm1, rfl⟩ := List.mem_map.1 hm
      obtain ⟨m2, hm2, rfl⟩ := List.mem_map.1 hm1
      have hm2s := (foldl_blocks_shape cfg P w.h hW.blocks _ T hx0m).2 m2 hm2
      constructor
      · rw [List.length_map, List.length_map, hm2s.1]
      · intro r hr
        obtain ⟨r1, _, rfl⟩ := List.mem_map.1 hr
        rw [length_linearNB, hW.wte_len]
  · simp only [GPT.forward, if_pos hguard]
    refine ⟨_, rfl, ?_, ?_⟩
    · rw [List.length_map, List.length_map,
        length_foldl_mapStep (Block.forward cfg P) w.h, List.length_map, hB]
    · intro m hm
      obtain ⟨m1, hm1, rfl⟩ := List.mem_map.1 hm
      refine ⟨rfl, ?_⟩
      intro r hr
      rw [List.mem_singleton.1 hr, length_linearNB, hW.wte_len]

/-- A concrete one-layer, one-head, width-1 model used by the witnesses. -/
def cfg1 : GPTConfig := ⟨1, 2, 1, 1, 1⟩

/-- Identity interpretation of the transcendental kernels. -/
def P1 : Prim := ⟨id, id, id, id, 1⟩

/-- Concrete attention parameters of shape `(3C, C)/(3C)/(C, C)/(C)` for
`C = 1`. -/
def attnW1 : AttnW := ⟨[[0], [0], [0]], [0, 0, 0], [[0]], [0]⟩

/-- Concrete MLP parameters of shape `(4C, C)/(4C)/(C, 4C)/(C)` for `C = 1`. -/
def mlpW1 : MLPW := ⟨[[0], [0], [0], [0]], [0, 0, 0, 0], [[0]], [0]⟩

/-- Concrete block parameters. -/
def blockW1 : BlockW := ⟨[0], [0], attnW1, [0], [0], mlpW1⟩

/-- Concrete model parameters: vocabulary 2, context 1, one layer. -/
def gptW1 : GPTW := ⟨[[0], [0]], [[0]], [blockW1], [0], [0]⟩

theorem wf_gptW1 : WFGPT cfg1 gptW1 := by
  refine ⟨by decide, by decide, by decide, ?_, by decide, by decide⟩
  intro bw hbw
  rw [show bw = blockW1 by simpa [gptW1] using hbw]
  exact ⟨⟨by decide, by decide, by decide, by decide⟩,
    ⟨by decide, by decide, by decide, by decide⟩,
    by decide, by decide, by decide, by decide⟩

/-- Witness for C1 at the concrete one-layer model with a `(1, 1)` batch. -/
theorem forward_logits_shape_witness :
    (∃ logits loss, GPT.forward cfg1 P1 gptW1 [[1]] (some [[0]]) =
        some (logits, some loss) ∧ logits.length = 1 ∧
      ∀ m ∈ logits, m.length = 1 ∧ ∀ r ∈ m, r.length = cfg1.vocab_size) ∧
    (∃ logits, GPT.forward cfg1 P1 gptW1 [[1]] none = some (logits, none) ∧
      logits.length = 1 ∧
      ∀ m ∈ logits, m.length = 1 ∧ ∀ r ∈ m, r.length = cfg1.vocab_size) :=
  forward_logits_shape cfg1 P1 gptW1 wf_gptW1 (by decide) [[1]] 1 1 (by decide)
    (by decide) (by decide) (by decide) (by decide) [[0]]

/-! ## C3: causal masking -/

theorem scaleVec_zero (u : Vec) : scaleVec 0 u = List.replicate u.length 0 := by
  induction u with
  | nil => rfl
  | cons a u ih => simpa [scaleVec, List.replicate_succ] using ih

theorem zipWith_scale_congr : ∀ (ws : Vec) (v v' : Mat), v.length = v'.length →
    (∀ j, j < v.length →
      scaleVec (ws.getD j 0) (v.getD j []) = scaleVec (ws.getD j 0) (v'.getD j [])) →
    List.zipWith scaleVec ws v = List.zipWith scaleVec ws v' := by
  intro ws
  induction ws with
  | nil => simp
  | cons a ws ih =>
    intro v v' hl h
    cases v with
    | nil =>
      cases v' with
      | nil => rfl
      | cons b' v' => simp at hl
    | cons b v =>
      cases v' with
      | nil => simp at hl
      | cons b' v' =>
        simp only [List.zipWith_cons_cons]
        have h0 := h 0 (by simp)
        simp only [List.getD_cons_zero] at h0
        rw [h0]
        congr 1
        refine ih v v' (by simpa using hl) (fun j hj => ?_)
        have := h (j + 1) (by simpa using Nat.succ_lt_succ hj)
        simpa [List.getD_cons_succ] using this

theorem weightedSum_congr (hs : ℕ) (ws : Vec) (v v' : Mat) (hlen : v.length = v'.length)
    (hagree : ∀ j, j < v.length →
      scaleVec (ws.getD j 0) (v.getD j []) = scaleVec (ws.getD j 0) (v'.getD j [])) :
    CausalSelfAttention.weightedSum hs ws v = CausalSelfAttention.weightedSum hs ws v' := by
  unfold CausalSelfAttention.weightedSum
  rw [zipWith_scale_congr ws v v' hlen hagree]

theorem headSlice_len {C H hs h : ℕ} (hhs : hs * H = C) (hh : h < H) (r : Vec)
    (hr : r.length = C) : (CausalSelfAttention.headSlice hs h r).length = hs := by
  simp only [CausalSelfAttention.headSlice, List.length_take, List.length_drop, hr]
  have h1 : h * hs + hs ≤ C := by
    rw [← Nat.succ_mul]
    calc (h + 1) * hs ≤ H * hs := Nat.mul_le_mul_right hs hh
    _ = C := by rw [Nat.mul_comm]; exact hhs
  omega

theorem scoreRow_getD (P : Prim) (hs : ℕ) (qi : Vec) (k : Mat) (i j : ℕ)
    (hj : j < k.length) :
    (CausalSelfAttention.scoreRow P hs qi k i).getD j none
      = if j ≤ i then some (dot qi (k.getD j []) * (1 / P.sqrt (hs : ℚ))) else none := by
  unfold CausalSelfAttention.scoreRow
  rw [getD_map _ _ (by simpa using hj) 0 none, getD_range hj]

theorem scoreRow_congr (P : Prim) (hs : ℕ) (qi : Vec) {k k' : Mat} (i : ℕ)
    (hlen : k.length = k'.length)
    (h : ∀ j, j ≤ i → j < k.length → k.getD j [] = k'.getD j []) :
    CausalSelfAttention.scoreRow P hs qi k i = CausalSelfAttention.scoreRow P hs qi k' i := by
  unfold CausalSelfAttention.scoreRow
  rw [hlen]
  refine List.map_congr_left (fun j hj => ?_)
  rw [List.mem_range] at hj
  by_cases hij : j ≤ i
  · rw [h j hij (hlen ▸ hj)]
  · simp [hij]

theorem softmaxMasked_getD_zero (P : Prim) (row : List (Option ℚ)) (j : ℕ)
    (hrow : row.getD j none = none) : (softmaxMasked P row).getD j 0 = 0 := by
  unfold softmaxMasked
  by_cases hj : j < row.length
  · rw [getD_map _ _ (by simpa using hj) 0 0, getD_map _ row hj none 0, hrow]
    simp
  · rw [List.getD_eq_getElem?_getD, List.getElem?_eq_none (by simpa using le_of_not_lt hj)]
    rfl

theorem headOut_getD (P : Prim) (hs : ℕ) (q k v : Mat) (i : ℕ) (hi : i < q.length) :
    (CausalSelfAttention.headOut P hs q k v).getD i []
      = CausalSelfAttention.weightedSum hs
          (softmaxMasked P (CausalSelfAttention.scoreRow P hs (q.getD i []) k i)) v := by
  unfold CausalSelfAttention.headOut
  rw [getD_map _ _ (by simpa using hi) 0 [], getD_range hi]

theorem attn_forward_getD (cfg : GPTConfig) (P : Prim) (w : AttnW) (x : Mat) (i : ℕ)
    (hi : i < x.length) :
    (CausalSelfAttention.forward cfg P w x).getD i []
      = linear w.c_proj_w w.c_proj_b
          ((((List.range cfg.n_head).map (fun h =>
              CausalSelfAttention.headOut P (cfg.n_embd / cfg.n_head)
                (((x.map (linear w.c_attn_w w.c_attn_b)).map
                    (fun r => r.take cfg.n_embd)).map
                  (CausalSelfAttention.headSlice (cfg.n_embd / cfg.n_head) h))
                (((x.map (linear w.c_attn_w w.c_attn_b)).map
                    (fun r => (r.drop cfg.n_embd).take cfg.n_embd)).map
                  (CausalSelfAttention.headSlice (cfg.n_embd / cfg.n_head) h))
                (((x.map (linear w.c_attn_w w.c_attn_b)).map
                    (fun r => r.drop (2 * cfg.n_embd))).map
                  (CausalSelfAttention.headSlice (cfg.n_embd / cfg.n_head) h)))).map
            (fun m => m.getD i [])).flatten) := by
  simp only [CausalSelfAttention.forward]
  rw [getD_map _ _ (by simpa using hi) [] [], getD_map _ _ (by simpa using hi) 0 [],
    getD_range hi]

/-- Causality of one attention call on a single batch element: if two inputs
agree at every time step `j ≤ i`, the attention outputs at step `i` agree —
the masked positions contribute softmax weight `0`, so the value rows beyond
`i` are multiplied by `0`. -/
theorem attn_forward_causal_single (cfg : GPTConfig) (P : Prim) (w : AttnW)
    (hW : WFAttn cfg w) (hmod : cfg.n_embd % cfg.n_head = 0)
    (x x' : Mat) (hlen : x.length = x'.length) (i : ℕ) (hi : i < x.length)
    (hagree : ∀ j, j ≤ i → x.getD j [] = x'.getD j []) :
    (CausalSelfAttention.forward cfg P w x).getD i []
      = (CausalSelfAttention.forward cfg P w x').getD i [] := by
  have hdvd : (cfg.n_embd / cfg.n_head) * cfg.n_head = cfg.n_embd :=
    Nat.div_mul_cancel (Nat.dvd_of_mod_eq_zero hmod)
  have hi' : i < x'.length := hlen ▸ hi
  have hx : ∀ j, j ≤ i → x[j]? = x'[j]? := by
    intro j hj
    have h1 : j < x.length := lt_of_le_of_lt hj hi
    have h2 : j < x'.length := hlen ▸ h1
    have h3 := hagree j hj
    rw [List.getD_eq_getElem?_getD, List.getD_eq_getElem?_getD,
      List.getElem?_eq_getElem h1, List.getElem?_eq_getElem h2] at h3
    rw [List.getElem?_eq_getElem h1, List.getElem?_eq_getElem h2]
    simpa using h3
  rw [attn_forward_getD cfg P w x i hi, attn_forward_getD cfg P w x' i hi']
  congr 2
  simp only [List.map_map]
  refine List.map_congr_left (fun h hh => ?_)
  simp only [Function.comp_apply]
  simp only [← List.map_map]
  rw [List.mem_range] at hh
  have hqlen : i < (((x.map (linear w.c_attn_w w.c_attn_b)).map
      (fun r => r.take cfg.n_embd)).map
      (CausalSelfAttention.headSlice (cfg.n_embd / cfg.n_head) h)).length := by
    simpa using hi
  have hqlen' : i < (((x'.map (linear w.c_attn_w w.c_attn_b)).map
      (fun r => r.take cfg.n_embd)).map
      (CausalSelfAttention.headSlice (cfg.n_embd / cfg.n_head) h)).length := by
    simpa using hi'
  rw [headOut_getD _ _ _ _ _ i hqlen, headOut_getD _ _ _ _ _ i hqlen']
  have hq_i : (((x.map (linear w.c_attn_w w.c_attn_b)).map
        (fun r => r.take cfg.n_embd)).map
        (CausalSelfAttention.headSlice (cfg.n_embd / cfg.n_head) h)).getD i []
      = (((x'.map (linear w.c_attn_w w.c_attn_b)).map
        (fun r => r.take cfg.n_embd)).map
        (CausalSelfAttention.headSlice (cfg.n_embd / cfg.n_head) h)).getD i [] := by
    simp only [List.getD_eq_getElem?_getD, List.getElem?_map, hx i le_rfl]
  rw [hq_i]
  have hksc : CausalSelfAttention.scoreRow P (cfg.n_embd / cfg.n_head)
        ((((x'.map (linear w.c_attn_w w.c_attn_b)).map
          (fun r => r.take cfg.n_embd)).map
          (CausalSelfAttention.headSlice (cfg.n_embd / cfg.n_head) h)).getD i [])
        (((x.map (linear w.c_attn_w w.c_attn_b)).map
          (fun r => (r.drop cfg.n_embd).take cfg.n_embd)).map
          (CausalSelfAttention.headSlice (cfg.n_embd / cfg.n_head) h)) i
      = CausalSelfAttention.scoreRow P (cfg.n_embd / cfg.n_head)
        ((((x'.map (linear w.c_attn_w w.c_attn_b)).map
          (fun r => r.take cfg.n_embd)).map
          (CausalSelfAttention.headSlice (cfg.n_embd / cfg.n_head) h)).getD i [])
        (((x'.map (linear w.c_attn_w w.c_attn_b)).map
          (fun r => (r.drop cfg.n_embd).take cfg.n_embd)).map
          (CausalSelfAttention.headSlice (cfg.n_embd / cfg.n_head) h)) i := by
    refine scoreRow_congr P _ _ i (by simp [hlen]) (fun j hj hjl => ?_)
    simp only [List.getD_eq_getElem?_getD, List.getElem?_map, hx j hj]
  rw [hksc]
  refine weightedSum_congr _ _ _ _ (by simp [hlen]) (fun j hj => ?_)
  have hjx : j < x.length := by simpa using hj
  by_cases hij : j ≤ i
  · have hv_j : (((x.map (linear w.c_attn_w w.c_attn_b)).map
          (fun r => r.drop (2 * cfg.n_embd))).map
          (CausalSelfAttention.headSlice (cfg.n_embd / cfg.n_head) h)).getD j []
        = (((x'.map (linear w.c_attn_w w.c_attn_b)).map
          (fun r => r.drop (2 * cfg.n_embd))).map
          (CausalSelfAttention.headSlice (cfg.n_embd / cfg.n_head) h)).getD j [] := by
      simp only [List.getD_eq_getElem?_getD, List.getElem?_map, hx j hij]
    rw [hv_j]
  · have hws0 : ((softmaxMasked P (CausalSelfAttention.scoreRow P
        (cfg.n_embd / cfg.n_head)
        ((((x'.map (linear w.c_attn_w w.c_attn_b)).map
          (fun r => r.take cfg.n_embd)).map
          (CausalSelfAttention.headSlice (cfg.n_embd / cfg.n_head) h)).getD i [])
        (((x'.map (linear w.c_attn_w w.c_attn_b)).map
          (fun r => (r.drop cfg.n_embd).take cfg.n_embd)).map
          (CausalSelfAttention.headSlice (cfg.n_embd / cfg.n_head) h)) i))).getD j 0 = 0 := by
      refine softmaxMasked_getD_zero P _ j ?_
      rw [scoreRow_getD _ _ _ _ _ _ (by simpa [← hlen] using hjx)]
      simp [hij]
    have hvl : ∀ (z : Mat), j < z.length →
        ((((z.map (linear w.c_attn_w w.c_attn_b)).map
          (fun r => r.drop (2 * cfg.n_embd))).map
          (CausalSelfAttention.headSlice (cfg.n_embd / cfg.n_head) h)).getD j []).length
        = cfg.n_embd / cfg.n_head := by
      intro z hjz
      simp only [List.getD_eq_getElem?_getD, List.getElem?_map,
        List.getElem?_eq_getElem hjz, Option.map_some, Option.getD_some]
      refine headSlice_len hdvd hh _ ?_
      rw [List.length_drop, length_linear, hW.caw, hW.cab, min_self]
      omega
    rw [hws0, scaleVec_zero, scaleVec_zero, hvl x hjx, hvl x' (hlen ▸ hjx)]

/-- C3: causal masking — for two `(B, T, C)` inputs that agree at every time
step `j ≤ i` (and may differ arbitrarily at steps `j > i`), the attention
output at time step `i` of any batch element is identical: no information
flows from future positions to position `i`. -/
theorem attention_causal (cfg : GPTConfig) (P : Prim) (w : AttnW) (hW : WFAttn cfg w)
    (hmod : cfg.n_embd % cfg.n_head = 0) (X X' : List Mat) (hB : X.length = X'.length)
    (b : ℕ) (hb : b < X.length) (i : ℕ) (hi : i < (X.getD b []).length)
    (hrowlen : (X.getD b []).length = (X'.getD b []).length)
    (hagree : ∀ j, j ≤ i → (X.getD b []).getD j [] = (X'.getD b []).getD j []) :
    ((CausalSelfAttention.forwardBatched cfg P w X).getD b []).getD i []
      = ((CausalSelfAttention.forwardBatched cfg P w X').getD b []).getD i [] := by
  unfold CausalSelfAttention.forwardBatched
  rw [getD_map _ X hb [] [], getD_map _ X' (hB ▸ hb) [] []]
  exact attn_forward_causal_single cfg P w hW hmod _ _ hrowlen i hi hagree

theorem wf_attnW1 : WFAttn cfg1 attnW1 := ⟨by decide, by decide, by decide, by decide⟩

/-- Witness for C3: two single-batch inputs of two time steps that agree at
step 0 and differ at step 1 give the same attention output at step 0. -/
theorem attention_causal_witness :
    ((CausalSelfAttention.forwardBatched cfg1 P1 attnW1 [[[0], [1]]]).getD 0 []).getD 0 []
      = ((CausalSelfAttention.forwardBatched cfg1 P1 attnW1 [[[0], [2]]]).getD 0 []).getD 0 [] :=
  attention_causal cfg1 P1 attnW1 wf_attnW1 (by decide) [[[0], [1]]] [[[0], [2]]]
    (by decide) 0 (by decide) 0 (by decide) (by decide)
    (fun j hj => by rw [Nat.le_zero.mp hj]; decide)

/-! ## C10: the loss ignores exactly the `-1` target positions -/

/-- The claim's description of the loss: the cross-entropy terms of exactly
those `(batch, time)` positions whose target id is not `-1`, averaged. -/
def specAvgCE (P : Prim) (logits : List Mat) (ts : List (List ℤ)) : ℚ :=
  let ce := (List.zipWith (fun m row => (m.zip row).filterMap
      (fun p => if p.2 = -1 then none else some (ceTerm P p.1 p.2))) logits ts).flatten
  ce.sum / ce.length

theorem filterMap_sentinel (P : Prim) (l : List (Vec × ℤ)) :
    l.filterMap (fun p => if p.2 = -1 then none else some (ceTerm P p.1 p.2))
      = (l.filter (fun p => p.2 ≠ -1)).map (fun p => ceTerm P p.1 p.2) := by
  induction l with
  | nil => rfl
  | cons a l ih =>
    by_cases ha : a.2 = -1
    · simp [List.filterMap_cons, List.filter_cons, ha, ih]
    · simp [List.filterMap_cons, List.filter_cons, ha, ih]

theorem zip_flatten : ∀ (A : List Mat) (B : List (List ℤ)), A.length = B.length →
    (∀ j, j < A.length → (A.getD j []).length = (B.getD j []).length) →
    A.flatten.zip B.flatten = (List.zipWith List.zip A B).flatten := by
  intro A
  induction A with
  | nil =>
    intro B hB _
    cases B with
    | nil => rfl
    | cons b B => simp at hB
  | cons a A ih =>
    intro B hB h
    cases B with
    | nil => simp at hB
    | cons b B =>
      simp only [List.flatten_cons, List.zipWith_cons_cons]
      rw [List.zip_append (by simpa using h 0 (by simp))]
      rw [ih B (by simpa using hB) (fun j hj => by
        simpa [List.getD_cons_succ] using h (j + 1) (by simpa using Nat.succ_lt_succ hj))]

/-- Flattening `(B, T)` to `(B*T)` commutes with dropping the ignored targets:
the loss the code computes on the flattened tensors is the average of the
per-position cross-entropies over exactly the positions with target `≠ -1`. -/
theorem cross_entropy_flatten (P : Prim) (logits : List Mat) (ts : List (List ℤ))
    (hB : logits.length = ts.length)
    (hT : ∀ j, j < logits.length → (logits.getD j []).length = (ts.getD j []).length) :
    cross_entropy P logits.flatten ts.flatten (-1) = specAvgCE P logits ts := by
  simp only [cross_entropy, specAvgCE]
  rw [zip_flatten logits ts hB hT]
  have hfn : (fun (m : Mat) (row : List ℤ) => (m.zip row).filterMap
        (fun p => if p.2 = -1 then none else some (ceTerm P p.1 p.2)))
      = fun m row => ((m.zip row).filter (fun p => p.2 ≠ -1)).map
        (fun p => ceTerm P p.1 p.2) := by
    funext m row
    exact filterMap_sentinel P _
  rw [hfn, ← List.map_zipWith (fun c => (List.filter (fun p => p.2 ≠ -1) c).map
      (fun p => ceTerm P p.1 p.2)) List.zip logits ts,
    List.filter_flatten, List.map_flatten, List.map_map]
  simp [Function.comp_def, List.length_flatten, List.map_map, List.length_map]

/-- C10: the ignore sentinel is the target value `-1`: for every forward pass
with targets, the returned loss equals the average of the per-position
cross-entropies over exactly those `(batch, time)` positions whose target id is
not `-1` — positions with target `-1` contribute nothing. -/
theorem loss_ignore_sentinel (cfg : GPTConfig) (P : Prim) (w : GPTW)
    (hW : WFGPT cfg w) (idx : List (List ℕ)) (B T : ℕ) (hB : idx.length = B)
    (hBpos : 0 < B) (hrows : ∀ r ∈ idx, r.length = T) (hT : T ≤ cfg.block_size)
    (ts : List (List ℤ)) (hts_len : ts.length = B) (hts_rows : ∀ r ∈ ts, r.length = T) :
    ∃ logits loss, GPT.forward cfg P w idx (some ts) = some (logits, some loss) ∧
      loss = specAvgCE P logits ts := by
  obtain ⟨r0, rest, rfl⟩ : ∃ r0 rest, idx = r0 :: rest := by
    cases idx with
    | nil => rw [List.length_nil] at hB; omega
    | cons a l => exact ⟨a, l, rfl⟩
  have ht : r0.length = T := hrows r0 (by simp)
  have hguard : ((r0 :: rest).headD []).length ≤ cfg.block_size := by
    rw [List.headD_cons, ht]; exact hT
  have hx0m := x0_shape cfg w hW (r0 :: rest) T hrows ((r0 :: rest).headD []).length
    (by rw [List.headD_cons, ht])
  simp only [GPT.forward, if_pos hguard]
  refine ⟨_, _, rfl, ?_⟩
  refine cross_entropy_flatten P _ ts ?_ ?_
  · rw [List.length_map, List.length_map,
      length_foldl_mapStep (Block.forward cfg P) w.h, List.length_map, hB, hts_len]
  · intro j hj
    have hmem := getD_mem_of_lt hj ([] : Mat)
    have hLlen : (List.map (fun m => List.map (linearNB w.wte) m)
        (List.map (fun m => List.map (layerNorm P w.ln_f_w w.ln_f_b) m)
          (List.foldl (fun xb bw => List.map (Block.forward cfg P bw) xb)
            (List.map (fun row => matAdd (List.map (embLookup w.wte cfg.n_embd) row)
              (List.map (embLookup w.wpe cfg.n_embd)
                (List.range ((r0 :: rest).headD []).length))) (r0 :: rest)) w.h))).length
        = B := by
      rw [List.length_map, List.length_map,
        length_foldl_mapStep (Block.forward cfg P) w.h, List.length_map, hB]
    have hmlen : ∀ m ∈ (List.map (fun m => List.map (linearNB w.wte) m)
        (List.map (fun m => List.map (layerNorm P w.ln_f_w w.ln_f_b) m)
          (List.foldl (fun xb bw => List.map (Block.forward cfg P bw) xb)
            (List.map (fun row => matAdd (List.map (embLookup w.wte cfg.n_embd) row)
              (List.map (embLookup w.wpe cfg.n_embd)
                (List.range ((r0 :: rest).headD []).length))) (r0 :: rest)) w.h))),
        m.length = T := by
      intro m hm
      obtain ⟨m1, hm1, rfl⟩ := List.mem_map.1 hm
      obtain ⟨m2, hm2, rfl⟩ := List.mem_map.1 hm1
      have hm2s := (foldl_blocks_shape cfg P w.h hW.blocks _ T hx0m).2 m2 hm2
      rw [List.length_map, List.length_map, hm2s.1]
    rw [hmlen _ (getD_mem_of_lt hj [])]
    have hjB : j < ts.length := by
      rw [hts_len, ← hLlen]; exact hj
    rw [hts_rows _ (getD_mem_of_lt hjB [])]

/-- Witness for C10 at the concrete one-layer model. -/
theorem loss_ignore_sentinel_witness :
    ∃ logits loss, GPT.forward cfg1 P1 gptW1 [[1]] (some [[0]]) =
        some (logits, some loss) ∧ loss = specAvgCE P1 logits [[0]] :=
  loss_ignore_sentinel cfg1 P1 gptW1 wf_gptW1 [[1]] 1 1 (by decide) (by decide)
    (by decide) (by decide) [[0]] (by decide) (by decide)

/-! ## C9: the top-k restriction in `generate` -/

theorem insertDesc_perm (x : ℚ) : ∀ l : List ℚ, (insertDesc x l).Perm (x :: l) := by
  intro l
  induction l with
  | nil => rfl
  | cons y ys ih =>
    by_cases h : y ≤ x
    · simp [insertDesc, h]
    · simp only [insertDesc, h, if_false]
      exact (ih.cons y).trans (List.Perm.swap x y ys)

theorem sortDescQ_perm (l : List ℚ) : (sortDescQ l).Perm l := by
  induction l with
  | nil => rfl
  | cons a l ih => exact (insertDesc_perm a (sortDescQ l)).trans (ih.cons a)

theorem insertDesc_sorted (x : ℚ) : ∀ l : List ℚ, l.Sorted (· ≥ ·) →
    (insertDesc x l).Sorted (· ≥ ·) := by
  intro l
  induction l with
  | nil => intro _; simp [insertDesc]
  | cons y ys ih =>
    intro hs
    rw [List.sorted_cons] at hs
    by_cases h : y ≤ x
    · simp only [insertDesc, h, if_true]
      rw [List.sorted_cons]
      refine ⟨?_, by rw [List.sorted_cons]; exact hs⟩
      intro b hb
      rcases List.mem_cons.1 hb with rfl | hb
      · exact h
      · exact le_trans (hs.1 b hb) h
    · simp only [insertDesc, h, if_false]
      rw [List.sorted_cons]
      refine ⟨?_, ih hs.2⟩
      intro b hb
      rcases List.mem_cons.1 ((insertDesc_perm x ys).mem_iff.1 hb) with rfl | h1
      · exact le_of_lt (lt_of_not_le h)
      · exact hs.1 b h1

theorem sortDescQ_sorted (l : List ℚ) : (sortDescQ l).Sorted (· ≥ ·) := by
  induction l with
  | nil => simp [sortDescQ]
  | cons a l ih => exact insertDesc_sorted a (sortDescQ l) ih

/-- In a duplicate-free descending-sorted list, exactly `j + 1` elements are
`≥` the element at index `j`. -/
theorem sorted_nodup_countP_ge : ∀ (s : List ℚ), s.Sorted (· ≥ ·) → s.Nodup →
    ∀ j, j < s.length → s.countP (fun x => s.getD j 0 ≤ x) = j + 1 := by
  intro s
  induction s with
  | nil => intro _ _ j hj; simp at hj
  | cons a s ih =>
    intro hs hn j hj
    rw [List.sorted_cons] at hs
    rw [List.nodup_cons] at hn
    cases j with
    | zero =>
      rw [List.getD_cons_zero, List.countP_cons]
      have h0 : s.countP (fun x => decide (a ≤ x)) = 0 := by
        rw [List.countP_eq_zero]
        intro b hb
        have hba : b ≤ a := hs.1 b hb
        have hne : b ≠ a := fun h => hn.1 (h ▸ hb)
        simp only [decide_eq_true_eq]
        exact not_le.2 (lt_of_le_of_ne hba hne)
      rw [h0]
      simp
    | succ j =>
      rw [List.getD_cons_succ, List.countP_cons]
      have hjs : j < s.length := by simpa using hj
      have hta : s.getD j 0 ≤ a := hs.1 _ (getD_mem_of_lt hjs 0)
      rw [ih hs.2 hn.2 j hjs, decide_eq_true hta]
      simp

/-- Counting nonzero probabilities after masking against a threshold that is
attained in the row: exactly the entries `≥` the threshold survive. -/
theorem softmax_countP_mask (P : Prim) (hexp : ∀ q : ℚ, 0 < P.exp q) (l : Vec)
    (thr : ℚ) (hthr : thr ∈ l) :
    (softmaxMasked P (l.map (fun x => if x < thr then none else some x))).countP
      (fun x => x ≠ 0) = l.countP (fun x => thr ≤ x) := by
  have hmem : some thr ∈ l.map (fun x => if x < thr then none else some x) :=
    List.mem_map.2 ⟨thr, hthr, by simp⟩
  have hsum_pos : 0 < ((l.map (fun x => if x < thr then none else some x)).map
      (fun o => o.elim 0 P.exp)).sum := by
    have hmem2 : P.exp thr ∈ (l.map (fun x => if x < thr then none else some x)).map
        (fun o => o.elim 0 P.exp) := List.mem_map.2 ⟨some thr, hmem, rfl⟩
    have hnonneg : ∀ x ∈ (l.map (fun x => if x < thr then none else some x)).map
        (fun o => o.elim 0 P.exp), 0 ≤ x := by
      intro x hx
      obtain ⟨o, _, rfl⟩ := List.mem_map.1 hx
      cases o with
      | none => simp
      | some q => simpa using le_of_lt (hexp q)
    exact lt_of_lt_of_le (hexp thr) (List.single_le_sum hnonneg _ hmem2)
  simp only [softmaxMasked]
  rw [List.countP_map, List.countP_map, List.countP_map]
  refine List.countP_congr (fun x hx => ?_)
  by_cases hlt : x < thr
  · simp [Function.comp_def, hlt, not_le.2 hlt]
  · have hsum_pos2 := hsum_pos
    simp only [List.map_map, Function.comp_def] at hsum_pos2
    simp [Function.comp_def, hlt, not_lt.1 hlt, ne_of_gt (hexp x),
      ne_of_gt hsum_pos2]

/-- C9 (amended): with a top-k restriction `top_k = k` configured, the masking
step of `GPT.generate` sets to `-inf` exactly the tokens whose logit is
strictly below the `min(k, n)`-th highest logit value; consequently, when the
logits are pairwise distinct and the softmax kernel is positive, exactly
`min(k, n)` tokens retain nonzero probability. (Ties at the threshold are all
kept, so duplicated logits can leave more than `k` tokens with nonzero
probability.) -/
theorem topk_mask_characterization (P : Prim) (l : Vec) (k : ℕ) (hk : 1 ≤ k)
    (hl : l ≠ []) (hnd : l.Nodup) (hexp : ∀ q : ℚ, 0 < P.exp q) :
    (∀ j, j < l.length →
      ((topkMask sortDescQ k l).getD j none = none ↔
        l.getD j 0 < (sortDescQ l).getD (min k l.length - 1) 0)) ∧
    (softmaxMasked P (topkMask sortDescQ k l)).countP (fun x => x ≠ 0)
      = min k l.length := by
  have hperm := sortDescQ_perm l
  have hslen : (sortDescQ l).length = l.length := hperm.length_eq
  have hn1 : 1 ≤ l.length := List.length_pos.2 hl
  have hkk1 : 1 ≤ min k l.length := le_min hk hn1
  have hidx : min k l.length - 1 < (sortDescQ l).length := by
    rw [hslen]
    have := min_le_right k l.length
    omega
  constructor
  · intro j hj
    simp only [topkMask]
    rw [getD_map _ l hj 0 none]
    by_cases hlt : l.getD j 0 < (sortDescQ l).getD (min k l.length - 1) 0 <;>
      simp [hlt]
  · have hthr_mem : (sortDescQ l).getD (min k l.length - 1) 0 ∈ l :=
      hperm.mem_iff.1 (getD_mem_of_lt hidx 0)
    simp only [topkMask]
    rw [softmax_countP_mask P hexp l _ hthr_mem, ← hperm.countP_eq,
      sorted_nodup_countP_ge (sortDescQ l) (sortDescQ_sorted l)
        (hperm.nodup_iff.2 hnd) (min k l.length - 1) hidx]
    omega

/-- Witness for C9 (amended) at `l = [3, 1, 2]`, `k = 2`. -/
theorem topk_mask_characterization_witness :
    (∀ j, j < ([3, 1, 2] : Vec).length →
      ((topkMask sortDescQ 2 [3, 1, 2]).getD j none = none ↔
        ([3, 1, 2] : Vec).getD j 0
          < (sortDescQ [3, 1, 2]).getD (min 2 ([3, 1, 2] : Vec).length - 1) 0)) ∧
    (softmaxMasked ⟨fun _ => 1, id, id, id, 1⟩
        (topkMask sortDescQ 2 [3, 1, 2])).countP (fun x => x ≠ 0)
      = min 2 ([3, 1, 2] : Vec).length :=
  topk_mask_characterization ⟨fun _ => 1, id, id, id, 1⟩ [3, 1, 2] 2 (by decide)
    (by decide) (by decide) (fun q => by norm_num)

/-- C9 counterexample: with three equal logits and `k = 2`, all three tokens
keep nonzero probability after the top-k masking and softmax — more than `k`. -/
theorem topk_more_than_k_nonzero :
    2 < (softmaxMasked ⟨fun _ => 1, id, id, id, 1⟩
        (topkMask sortDescQ 2 [1, 1, 1])).countP (fun x => x ≠ 0) := by
  norm_num [softmaxMasked, topkMask, sortDescQ, insertDesc, List.countP,
    List.countP.go]

/-! ## C7: `from_pretrained` checks names and shapes exactly -/

theorem nodup_fst_inj {α : Type} : ∀ {l : List (String × α)},
    (l.map Prod.fst).Nodup → ∀ {p q : String × α}, p ∈ l → q ∈ l → p.1 = q.1 → p = q := by
  intro l
  induction l with
  | nil => intro _ p q hp; simp at hp
  | cons a l ih =>
    intro h p q hp hq hfst
    rw [List.map_cons, List.nodup_cons] at h
    rcases List.mem_cons.1 hp with rfl | hp2 <;> rcases List.mem_cons.1 hq with rfl | hq2
    · rfl
    · exact absurd (by rw [hfst]; exact List.mem_map_of_mem Prod.fst hq2) h.1
    · exact absurd (by rw [← hfst]; exact List.mem_map_of_mem Prod.fst hp2) h.1
    · exact ih h.2 hp2 hq2 hfst

theorem keyOk_true_iff (sd : List (String × Shape)) (p : String × Shape) :
    keyOk sd p = true ↔ ∃ q, sd.find? (fun q => q.1 == p.1) = some q ∧
      (if isTransposedKey p.1 = true then p.2.reverse = q.2 else p.2 = q.2) := by
  unfold keyOk
  cases hfind : sd.find? (fun q => q.1 == p.1) with
  | none => simp
  | some q =>
    simp only [Option.some.injEq]
    constructor
    · intro hok
      refine ⟨q, rfl, ?_⟩
      by_cases htr : isTransposedKey p.1 = true <;> simp [htr] at hok ⊢ <;> exact hok
    · rintro ⟨q2, rfl, hq2⟩
      by_cases htr : isTransposedKey p.1 = true <;> simp [htr] at hq2 ⊢ <;> exact hq2

/-- C7: `GPT.from_pretrained` succeeds exactly when, after discarding the
non-persisted mask buffers, the checkpoint's parameter-name set equals the
model's parameter-name set and every tensor's shape matches exactly (reversed
for the four transposed Conv1D kinds); any name-set or shape mismatch makes the
load fail. -/
theorem from_pretrained_ok_iff (sd sd_hf : List (String × Shape))
    (h1 : (sd.map Prod.fst).Nodup) (h2 : (sd_hf.map Prod.fst).Nodup) :
    from_pretrained sd sd_hf = Except.ok () ↔
      ((∀ k2 ∈ (hfPairs sd_hf).map Prod.fst, k2 ∈ modelKeys sd) ∧
       (∀ k2 ∈ modelKeys sd, k2 ∈ (hfPairs sd_hf).map Prod.fst) ∧
       ∀ p ∈ hfPairs sd_hf, ∀ q ∈ sd, q.1 = p.1 →
         (if isTransposedKey p.1 = true then p.2.reverse = q.2 else p.2 = q.2)) := by
  have hnd_hf : ((hfPairs sd_hf).map Prod.fst).Nodup := by
    refine List.Sublist.nodup (List.Sublist.map Prod.fst ?_) h2
    exact (List.filter_sublist _).trans (List.filter_sublist _)
  have hnd_m : (modelKeys sd).Nodup := h1.filter _
  constructor
  · intro h
    by_cases hlen : (hfPairs sd_hf).length = (modelKeys sd).length
    · by_cases hall : (hfPairs sd_hf).all (keyOk sd) = true
      · rw [List.all_eq_true] at hall
        have hsub : ∀ k2 ∈ (hfPairs sd_hf).map Prod.fst, k2 ∈ modelKeys sd := by
          intro k2 hk2
          obtain ⟨p, hp, rfl⟩ := List.mem_map.1 hk2
          obtain ⟨q, hfind, _⟩ := (keyOk_true_iff sd p).1 (hall p hp)
          have hq_mem : q ∈ sd := List.mem_of_find?_eq_some hfind
          have hq_fst : q.1 = p.1 := by
            have := List.find?_some hfind
            simpa using this
          have hp_nb : strEndsWith p.1 ".attn.bias" = false := by
            have := (List.mem_filter.1 hp).2
            simpa using this
          refine List.mem_filter.2 ⟨hq_fst ▸ List.mem_map_of_mem Prod.fst hq_mem, ?_⟩
          simp [hp_nb]
        have hcard : ((hfPairs sd_hf).map Prod.fst).toFinset
            = (modelKeys sd).toFinset := by
          refine Finset.eq_of_subset_of_card_le
            (fun k2 hk2 => List.mem_toFinset.2 (hsub k2 (List.mem_toFinset.1 hk2)))
            ?_
          rw [List.toFinset_card_of_nodup hnd_hf, List.toFinset_card_of_nodup hnd_m,
            List.length_map]
          omega
        refine ⟨hsub, ?_, ?_⟩
        · intro k2 hk2
          have := Finset.ext_iff.1 hcard k2
          rw [List.mem_toFinset, List.mem_toFinset] at this
          exact this.2 hk2
        · intro p hp q hq hq1
          obtain ⟨q0, hfind, hshape⟩ := (keyOk_true_iff sd p).1 (hall p hp)
          have hq0_mem : q0 ∈ sd := List.mem_of_find?_eq_some hfind
          have hq0_fst : q0.1 = p.1 := by
            have := List.find?_some hfind
            simpa using this
          have : q = q0 := nodup_fst_inj h1 hq hq0_mem (by rw [hq1, hq0_fst])
          rw [this]
          exact hshape
      · rw [from_pretrained, if_pos hlen, if_neg hall] at h
        cases h
    · rw [from_pretrained, if_neg hlen] at h
      cases h
  · rintro ⟨hsub1, hsub2, hshape⟩
    have hall : (hfPairs sd_hf).all (keyOk sd) = true := by
      rw [List.all_eq_true]
      intro p hp
      have hk : p.1 ∈ modelKeys sd := hsub1 p.1 (List.mem_map_of_mem Prod.fst hp)
      have hk2 : p.1 ∈ sd.map Prod.fst := (List.mem_filter.1 hk).1
      obtain ⟨x, hx, hx1⟩ := List.mem_map.1 hk2
      have hfind_some : (sd.find? (fun q => q.1 == p.1)).isSome = true := by
        rw [List.find?_isSome]
        exact ⟨x, hx, by simp [hx1]⟩
      obtain ⟨q0, hfind⟩ := Option.isSome_iff_exists.1 hfind_some
      have hq0_mem : q0 ∈ sd := List.mem_of_find?_eq_some hfind
      have hq0_fst : q0.1 = p.1 := by
        have := List.find?_some hfind
        simpa using this
      exact (keyOk_true_iff sd p).2 ⟨q0, hfind, hshape p hp q0 hq0_mem hq0_fst⟩
    have hlen : (hfPairs sd_hf).length = (modelKeys sd).length := by
      have hcard : ((hfPairs sd_hf).map Prod.fst).toFinset = (modelKeys sd).toFinset := by
        refine Finset.ext (fun k2 => ?_)
        rw [List.mem_toFinset, List.mem_toFinset]
        exact ⟨hsub1 k2, hsub2 k2⟩
      have := congrArg Finset.card hcard
      rw [List.toFinset_card_of_nodup hnd_hf, List.toFinset_card_of_nodup hnd_m,
        List.length_map] at this
      exact this
    rw [from_pretrained, if_pos hlen, if_pos hall]

/-- Witness for C7: a one-tensor checkpoint matching the model loads. -/
theorem from_pretrained_ok_iff_witness :
    from_pretrained [("a.weight", [2, 3]), ("x.attn.bias", [5, 5])]
        [("a.weight", [2, 3])] = Except.ok () :=
  (from_pretrained_ok_iff [("a.weight", [2, 3]), ("x.attn.bias", [5, 5])]
    [("a.weight", [2, 3])] (by decide) (by decide)).mpr
    ⟨by decide, by decide, by decide⟩

/-! ## C5: the GELU numerical contract over the reals -/

theorem one_sub_tanh (x : ℝ) : 1 - Real.tanh x = 2 / (Real.exp (2 * x) + 1) := by
  rw [Real.tanh_eq_sinh_div_cosh, Real.sinh_eq, Real.cosh_eq, Real.exp_neg]
  have he : 0 < Real.exp x := Real.exp_pos x
  have h2 : Real.exp (2 * x) = Real.exp x * Real.exp x := by
    rw [two_mul, Real.exp_add]
  rw [h2]
  field_simp
  ring

theorem tanh_le_tanh_of_le {x y : ℝ} (h : x ≤ y) : Real.tanh x ≤ Real.tanh y := by
  have hx := one_sub_tanh x
  have hy := one_sub_tanh y
  have h2 : Real.exp (2 * x) ≤ Real.exp (2 * y) := Real.exp_le_exp.2 (by linarith)
  have hpx : (0:ℝ) < Real.exp (2 * x) + 1 := by positivity
  have hpy : (0:ℝ) < Real.exp (2 * y) + 1 := by positivity
  have h3 : 2 / (Real.exp (2 * y) + 1) ≤ 2 / (Real.exp (2 * x) + 1) := by gcongr
  linarith

theorem neg_one_lt_tanh (x : ℝ) : -1 < Real.tanh x := by
  have h := one_sub_tanh (-x)
  rw [Real.tanh_neg] at h
  have hp : (0:ℝ) < 2 / (Real.exp (2 * -x) + 1) := by positivity
  linarith

/-- C5 (amended): the feed-forward nonlinearity equals the exact
tanh-approximation GELU `0.5*x*(1 + tanh(sqrt(2/pi)*(x + 0.044715*x^3)))`, maps
input `0` exactly to output `0`, and is monotonic increasing on the
nonnegative reals. (It is not monotonic on the whole real line — see the
counterexample.) -/
theorem gelu_formula_zero_monotone :
    (∀ x : ℝ, NewGELU.forwardR x
      = 0.5 * x * (1 + Real.tanh (Real.sqrt (2 / Real.pi) * (x + 0.044715 * x ^ 3)))) ∧
    NewGELU.forwardR 0 = 0 ∧
    MonotoneOn NewGELU.forwardR (Set.Ici 0) := by
  refine ⟨fun x => by rw [NewGELU.forwardR]; norm_num, by simp [NewGELU.forwardR], ?_⟩
  intro a ha b hb hab
  rw [Set.mem_Ici] at ha hb
  simp only [NewGELU.forwardR]
  have hs : (0:ℝ) ≤ Real.sqrt (2 / Real.pi) := Real.sqrt_nonneg _
  have hu : Real.sqrt (2 / Real.pi) * (a + 44715 / 1000000 * a ^ 3)
      ≤ Real.sqrt (2 / Real.pi) * (b + 44715 / 1000000 * b ^ 3) := by
    have hcube : a ^ 3 ≤ b ^ 3 := pow_le_pow_left₀ ha hab 3
    have : a + 44715 / 1000000 * a ^ 3 ≤ b + 44715 / 1000000 * b ^ 3 := by nlinarith
    exact mul_le_mul_of_nonneg_left this hs
  have htanh := tanh_le_tanh_of_le hu
  have hpos : (0:ℝ) ≤ 1 + Real.tanh (Real.sqrt (2 / Real.pi)
      * (a + 44715 / 1000000 * a ^ 3)) := by
    have := neg_one_lt_tanh (Real.sqrt (2 / Real.pi) * (a + 44715 / 1000000 * a ^ 3))
    linarith
  have h1 : 1 / 2 * a ≤ 1 / 2 * b := by linarith
  have h2 : (0:ℝ) ≤ 1 / 2 * b := by linarith
  exact mul_le_mul h1 (by linarith) hpos h2

/-- C5 counterexample: the tanh-approximation GELU is not monotonic increasing
on its whole domain: `-4 < -1` but `gelu(-1) < gelu(-4)` (the function dips
below zero on the negative axis and comes back up towards `0`). -/
theorem gelu_not_monotone :
    (-4 : ℝ) < -1 ∧ NewGELU.forwardR (-1) < NewGELU.forwardR (-4) := by
  refine ⟨by norm_num, ?_⟩
  have hpi1 : (3.141592 : ℝ) < Real.pi := Real.pi_gt_d6
  have hpi2 : Real.pi < 3.15 := Real.pi_lt_d2
  have hpi0 : (0:ℝ) < Real.pi := by linarith
  set s := Real.sqrt (2 / Real.pi) with hs
  have hs_nn : 0 ≤ s := Real.sqrt_nonneg _
  have hs_hi : s < 0.798 := by
    rw [hs, Real.sqrt_lt' (by norm_num : (0:ℝ) < 0.798)]
    rw [div_lt_iff₀ hpi0]
    nlinarith
  have hs_lo : (0.796 : ℝ) < s := by
    rw [hs, Real.lt_sqrt (by norm_num : (0:ℝ) ≤ 0.796)]
    rw [lt_div_iff₀ hpi0]
    nlinarith
  have harg4 : NewGELU.forwardR (-4) = -2 * (1 - Real.tanh (s * 6.86176)) := by
    rw [NewGELU.forwardR, ← hs]
    rw [show ((-4:ℝ) + 44715 / 1000000 * (-4) ^ 3) = -6.86176 by norm_num]
    rw [show s * (-6.86176 : ℝ) = -(s * 6.86176) by ring, Real.tanh_neg]
    ring
  have harg1 : NewGELU.forwardR (-1) = -(1 / 2) * (1 - Real.tanh (s * 1.044715)) := by
    rw [NewGELU.forwardR, ← hs]
    rw [show ((-1:ℝ) + 44715 / 1000000 * (-1) ^ 3) = -1.044715 by norm_num]
    rw [show s * (-1.044715 : ℝ) = -(s * 1.044715) by ring, Real.tanh_neg]
    ring
  have ht1 : (5.46 : ℝ) < s * 6.86176 := by nlinarith
  have ht2 : s * 1.044715 < 0.834 := by nlinarith
  have ht2nn : (0:ℝ) ≤ s * 1.044715 := by positivity
  have he1 : (193 : ℝ) < Real.exp (2 * (s * 6.86176)) := by
    have h1 : Real.exp (10.92 : ℝ) ≤ Real.exp (2 * (s * 6.86176)) :=
      Real.exp_le_exp.2 (by nlinarith)
    have h2 : Real.exp (10.92 : ℝ) = Real.exp (2.73 : ℝ) ^ (4 : ℕ) := by
      rw [← Real.exp_nat_mul]
      norm_num
    have h3 : (3.73 : ℝ) ≤ Real.exp 2.73 := by
      have := Real.add_one_le_exp (2.73 : ℝ)
      linarith
    have h4 : (3.73 : ℝ) ^ (4 : ℕ) ≤ Real.exp 2.73 ^ (4 : ℕ) :=
      pow_le_pow_left₀ (by norm_num) h3 4
    have h5 : (193 : ℝ) < 3.73 ^ (4 : ℕ) := by norm_num
    calc (193 : ℝ) < 3.73 ^ (4 : ℕ) := h5
    _ ≤ Real.exp 2.73 ^ (4 : ℕ) := h4
    _ = Real.exp 10.92 := h2.symm
    _ ≤ Real.exp (2 * (s * 6.86176)) := h1
  have he2 : Real.exp (2 * (s * 1.044715)) < 37 := by
    have h1 : Real.exp (2 * (s * 1.044715)) = Real.exp (s * 1.044715) ^ (2 : ℕ) := by
      rw [← Real.exp_nat_mul]
      norm_num
    have h6 : (0:ℝ) < 1 - s * 1.044715 := by linarith
    have h2 : Real.exp (s * 1.044715) ≤ 1 / (1 - s * 1.044715) := by
      have h3 := Real.add_one_le_exp (-(s * 1.044715))
      have h4 : Real.exp (-(s * 1.044715)) = 1 / Real.exp (s * 1.044715) := by
        rw [Real.exp_neg]
        ring
      have h5 : 0 < Real.exp (s * 1.044715) := Real.exp_pos _
      rw [h4] at h3
      rw [le_div_iff₀ h6]
      calc Real.exp (s * 1.044715) * (1 - s * 1.044715)
          ≤ Real.exp (s * 1.044715) * (1 / Real.exp (s * 1.044715)) := by
            apply mul_le_mul_of_nonneg_left (by linarith) (le_of_lt h5)
      _ = 1 := by field_simp
    have h7 : 1 / (1 - s * 1.044715) ≤ 1 / (0.166 : ℝ) :=
      one_div_le_one_div_of_le (by norm_num) (by linarith)
    have h9 : Real.exp (s * 1.044715) ^ (2:ℕ) ≤ (1 / (0.166:ℝ)) ^ (2:ℕ) :=
      pow_le_pow_left₀ (le_of_lt (Real.exp_pos _)) (le_trans h2 h7) 2
    calc Real.exp (2 * (s * 1.044715)) = Real.exp (s * 1.044715) ^ (2:ℕ) := h1
    _ ≤ (1 / (0.166:ℝ)) ^ (2:ℕ) := h9
    _ < 37 := by norm_num
  rw [harg1, harg4, one_sub_tanh, one_sub_tanh]
  have hp1 : (0:ℝ) < Real.exp (2 * (s * 6.86176)) + 1 := by positivity
  have hp2 : (0:ℝ) < Real.exp (2 * (s * 1.044715)) + 1 := by positivity
  rw [show -(1/2 : ℝ) * (2 / (Real.exp (2 * (s * 1.044715)) + 1))
      = -(1 / (Real.exp (2 * (s * 1.044715)) + 1)) by ring]
  rw [show (-2 : ℝ) * (2 / (Real.exp (2 * (s * 6.86176)) + 1))
      = -(4 / (Real.exp (2 * (s * 6.86176)) + 1)) by ring]
  rw [neg_lt_neg_iff, div_lt_div_iff₀ hp1 hp2]
  nlinarith
